import Mathlib

/-!
A shallow embedding of the dynamic storage allocator of mm-tree-sb.c
(the final variant of the repository: segregated small-size classes
plus a size-ordered tree of same-size rings, no footer on allocated
blocks), together with proofs and disproofs of the specification
claims about it.

Representation.  The heap is the array of 4-byte words starting at
heap_listp; a C block pointer is modelled as its word offset from
heap_listp.  The prologue header sits at offset 0, so offset 0 doubles
as the NULL encoding used by the stored 4-byte links, exactly as in
the source, where a stored offset of 0 decodes to heap_listp and is
then returned as NULL.  mem_heap_hi() - 3 is the start of the last
word of the heap, i.e. offset len - 1.  The seg_list array and
seg_root are separate C globals living outside the word array, so
they are separate fields of the state.  The heap oracle (mem_sbrk) is
modelled as an unbounded grow-only region, so it never fails; the
sbrk-failure paths of the source are unreachable in the model.  The
words obtained from the oracle are uninitialized in C; the model
leaves them at whatever the memory function already held.

Recursive C functions (put, take, minimum, deleteMin, ceiling, the
list scans and the checker traversals) recurse along pointers stored
in the heap, so they are embedded with an explicit fuel parameter;
every wrapper passes fuel larger than any acyclic traversal of a heap
of the given length, so fuel exhaustion is unreachable on the states
considered in the theorems below.
-/

set_option maxRecDepth 10000

namespace MM

/-- Word-addressed heap memory: word offset from heap_listp to the
32-bit word stored there. -/
def Mem : Type := Nat → Nat

/-- Read the word at offset i. -/
def rd (m : Mem) (i : Nat) : Nat := m i

/-- Write the word at offset i. -/
def wr (m : Mem) (i v : Nat) : Mem := fun j => if j = i then v else m j

/-- The allocator state: the word heap from heap_listp on, its length
in words, the six small-class heads (seg_list) and the tree root
(seg_root).  Heads and root hold word offsets; none encodes NULL. -/
structure State where
  mem : Mem
  len : Nat
  seg : Nat → Option Nat
  segRoot : Option Nat

/-- Update one entry of the seg_list array. -/
def segSet (s : Nat → Option Nat) (i : Nat) (v : Option Nat) : Nat → Option Nat :=
  fun j => if j = i then v else s j

/-- CHUNKSIZE constant (mm-tree-sb.c:57). -/
def CHUNKSIZE : Nat := 65

/-- FREE argument constant: mark prev block as free (mm-tree-sb.c:58). -/
def FREE : Nat := 1

/-- ALLOCATED argument constant (mm-tree-sb.c:59). -/
def ALLOCATED : Nat := 0

/-- SEG_LIST_SIZE constant (mm-tree-sb.c:60). -/
def SEG_LIST_SIZE : Nat := 6

/-- ADDRESS order selector (mm-tree-sb.c:62). -/
def ADDRESS : Nat := 1

/-- SIZE order selector (mm-tree-sb.c:63). -/
def SIZE : Nat := 0

/-- block_size (mm-tree-sb.c:171): size in words, low 30 bits of the header. -/
def block_size (m : Mem) (b : Nat) : Nat := rd m b &&& 0x3FFFFFFF

/-- block_free (mm-tree-sb.c:179): bit 30 clear means free. -/
def block_free (m : Mem) (b : Nat) : Bool := rd m b &&& 0x40000000 == 0

/-- block_prev_free (mm-tree-sb.c:187): bit 31 clear means the
previous contiguous block is free. -/
def block_prev_free (m : Mem) (b : Nat) : Bool := rd m b &&& 0x80000000 == 0

/-- block_mark_free (mm-tree-sb.c:199): rewrite the header bits and
copy the header to the footer at offset size+1.  alloc = FREE clears
both flag bits; alloc = ALLOCATED sets the prev-alloc bit. -/
def block_mark_free (m : Mem) (b : Nat) (alloc : Nat) : Mem :=
  let next := block_size m b + 1
  let h := if alloc == 0 then (rd m b ||| 0x80000000) &&& 0xBFFFFFFF else rd m b &&& 0x3FFFFFFF
  wr (wr m b h) (b + next) h

/-- block_mark_allo (mm-tree-sb.c:212): set the alloc bit in the
header only (no footer on allocated blocks); alloc = FREE clears the
prev-alloc bit, alloc = ALLOCATED sets it. -/
def block_mark_allo (m : Mem) (b : Nat) (alloc : Nat) : Mem :=
  let h := if alloc == 0 then rd m b ||| 0xC0000000 else (rd m b ||| 0x40000000) &&& 0x7FFFFFFF
  wr m b h

/-- block_pred (mm-tree-sb.c:238): stored ring-predecessor offset at
word +1; 0 decodes to NULL. -/
def block_pred (m : Mem) (b : Nat) : Option Nat :=
  let a := rd m (b + 1)
  if a = 0 then none else some a

/-- block_succ (mm-tree-sb.c:255): stored ring-successor offset at word +2. -/
def block_succ (m : Mem) (b : Nat) : Option Nat :=
  let a := rd m (b + 2)
  if a = 0 then none else some a

/-- block_left (mm-tree-sb.c:272): stored left-child offset at word +3. -/
def block_left (m : Mem) (b : Nat) : Option Nat :=
  let a := rd m (b + 3)
  if a = 0 then none else some a

/-- block_right (mm-tree-sb.c:289): stored right-child offset at word +4. -/
def block_right (m : Mem) (b : Nat) : Option Nat :=
  let a := rd m (b + 4)
  if a = 0 then none else some a

/-- block_prev (mm-tree-sb.c:306): step back over the previous block's
footer; only meaningful when block_prev_free holds. -/
def block_prev (m : Mem) (b : Nat) : Nat := b - block_size m (b - 1) - 2

/-- block_next (mm-tree-sb.c:315): a free block occupies size+2 words
(header and footer), an allocated one size+1 (header only). -/
def block_next (m : Mem) (b : Nat) : Nat :=
  if block_free m b then b + block_size m b + 2 else b + block_size m b + 1

/-- set_val / set_size (mm-tree-sb.c:325, 333): store the size as the
whole header word (the flag bits are re-established afterwards by the
mark functions). -/
def set_size (m : Mem) (b : Nat) (size : Nat) : Mem := wr m b size

/-- set_ptr (mm-tree-sb.c:346): store the ring predecessor/successor
offsets at words +1 and +2; NULL is stored as offset 0. -/
def set_ptr (m : Mem) (b : Nat) (pred succ : Option Nat) : Mem :=
  let po := match pred with | none => 0 | some p => p
  let so := match succ with | none => 0 | some s => s
  wr (wr m (b + 1) po) (b + 2) so

/-- set_chd_ptr (mm-tree-sb.c:376): store the tree children offsets at
words +3 and +4. -/
def set_chd_ptr (m : Mem) (b : Nat) (left right : Option Nat) : Mem :=
  let lo := match left with | none => 0 | some l => l
  let ro := match right with | none => 0 | some r => r
  wr (wr m (b + 3) lo) (b + 4) ro

/-- find_index (mm-tree-sb.c:405). -/
def find_index (words : Nat) : Nat := (words - 2) / 2

/-- cmp_size (mm-tree-sb.c:731). -/
def cmp_size (m : Mem) (b1 b2 : Nat) : Int :=
  if block_size m b2 < block_size m b1 then 1
  else if block_size m b1 < block_size m b2 then -1
  else 0

/-- cmp_uint (mm-tree-sb.c:763). -/
def cmp_uint (a b : Nat) : Int :=
  if b < a then 1 else if a < b then -1 else 0

/-- epi_block (mm-tree-sb.c:774): the last word of the heap. -/
def epi_block (st : State) : Nat := st.len - 1

/-- small_block_insert (mm-tree-sb.c:475): LIFO push onto the class head. -/
def small_block_insert (st : State) (b : Nat) : State :=
  let index := find_index (block_size st.mem b)
  match st.seg index with
  | none =>
    { st with mem := set_ptr st.mem b none none, seg := segSet st.seg index (some b) }
  | some old =>
    let m1 := set_ptr st.mem old (some b) (block_succ st.mem old)
    let m2 := set_ptr m1 b none (some old)
    { st with mem := m2, seg := segSet st.seg index (some b) }

/-- small_block_delete (mm-tree-sb.c:498): unlink from the class chain. -/
def small_block_delete (st : State) (b : Nat) : State :=
  let pred := block_pred st.mem b
  let succ := block_succ st.mem b
  let index := find_index (block_size st.mem b)
  match pred, succ with
  | none, none => { st with seg := segSet st.seg index none }
  | none, some s =>
    let m1 := set_ptr st.mem s none (block_succ st.mem s)
    { st with mem := m1, seg := segSet st.seg index (some s) }
  | some p, none =>
    { st with mem := set_ptr st.mem p (block_pred st.mem p) none }
  | some p, some s =>
    let m1 := set_ptr st.mem p (block_pred st.mem p) (some s)
    let m2 := set_ptr m1 s (some p) (block_succ m1 s)
    { st with mem := m2 }

/-- add (mm-tree-sb.c:585): push the block onto the same-size ring; the
new block becomes the canonical head and inherits the children. -/
def add (m : Mem) (b : Nat) (root : Option Nat) : Mem × Option Nat :=
  match root with
  | none =>
    let m1 := set_ptr m b none none
    let m2 := if 4 ≤ block_size m1 b then set_chd_ptr m1 b none none else m1
    (m2, some b)
  | some rt =>
    let m1 := set_ptr m b none (some rt)
    let m2 := set_ptr m1 rt (some b) (block_succ m1 rt)
    let m3 := if 4 ≤ block_size m2 b then set_chd_ptr m2 b (block_left m2 rt) (block_right m2 rt) else m2
    (m3, some b)

/-- del (mm-tree-sb.c:605): unlink the block from the same-size ring;
when it was the head, promote its successor (copying the children). -/
def del (m : Mem) (b : Nat) (root : Option Nat) : Mem × Option Nat :=
  let pred := block_pred m b
  let succ := block_succ m b
  match pred, succ with
  | none, none => (m, none)
  | none, some s =>
    let m1 := set_ptr m s none (block_succ m s)
    let m2 := set_chd_ptr m1 s (block_left m1 b) (block_right m1 b)
    (m2, some s)
  | some p, none =>
    (set_ptr m p (block_pred m p) none, root)
  | some p, some s =>
    let m1 := set_ptr m p (block_pred m p) (some s)
    let m2 := set_ptr m1 s (some p) (block_succ m1 s)
    (m2, root)

/-- minimum (mm-tree-sb.c:636): leftmost by ring predecessor (ADDRESS)
or by left child (SIZE). -/
def minimum (fuel : Nat) (m : Mem) (b : Nat) (order : Nat) : Nat :=
  match fuel with
  | 0 => b
  | fuel + 1 =>
    if order == ADDRESS then
      match block_pred m b with
      | none => b
      | some p => minimum fuel m p order
    else
      match block_left m b with
      | none => b
      | some l => minimum fuel m l order

/-- deleteMin (mm-tree-sb.c:673): remove the minimum of the given
order from the structure rooted at b, returning the new root. -/
def deleteMin (fuel : Nat) (m : Mem) (b : Nat) (order : Nat) : Mem × Option Nat :=
  match fuel with
  | 0 => (m, some b)
  | fuel + 1 =>
    if order == ADDRESS then
      match block_pred m b with
      | none =>
        let t := block_succ m b
        match t with
        | some tt =>
          let m1 := if 4 ≤ block_size m b then set_chd_ptr m tt (block_left m b) (block_right m b) else m
          (m1, some tt)
        | none => (m, none)
      | some p =>
        let (m1, r) := deleteMin fuel m p order
        (set_ptr m1 b r (block_succ m1 b), some b)
    else
      match block_left m b with
      | none => (m, block_right m b)
      | some l =>
        let (m1, r) := deleteMin fuel m l order
        (set_chd_ptr m1 b r (block_right m1 b), some b)

/-- put (mm-tree-sb.c:527): insert a free block into the size tree;
on a size hit, splice it into the ring via add. -/
def put (fuel : Nat) (m : Mem) (b : Nat) (root : Option Nat) : Mem × Option Nat :=
  match fuel with
  | 0 => (m, root)
  | fuel + 1 =>
    match root with
    | none =>
      let m1 := set_ptr m b none none
      let m2 := if 4 ≤ block_size m1 b then set_chd_ptr m1 b none none else m1
      (m2, some b)
    | some rt =>
      let cmp := cmp_size m b rt
      if 0 < cmp then
        let (m1, r') := put fuel m b (block_right m rt)
        (set_chd_ptr m1 rt (block_left m1 rt) r', some rt)
      else if cmp < 0 then
        let (m1, l') := put fuel m b (block_left m rt)
        (set_chd_ptr m1 rt l' (block_right m1 rt), some rt)
      else
        add m b root

/-- take (mm-tree-sb.c:553): delete a free block from the size tree;
when the canonical node dies with a non-empty subtree pair, replace it
by the size-order successor. -/
def take (fuel : Nat) (m : Mem) (b : Nat) (root : Option Nat) : Mem × Option Nat :=
  match fuel with
  | 0 => (m, root)
  | fuel + 1 =>
    match root with
    | none => (m, none)
    | some rt =>
      let cmp := cmp_size m b rt
      if cmp < 0 then
        let (m1, l') := take fuel m b (block_left m rt)
        (set_chd_ptr m1 rt l' (block_right m1 rt), some rt)
      else if 0 < cmp then
        let (m1, r') := take fuel m b (block_right m rt)
        (set_chd_ptr m1 rt (block_left m1 rt) r', some rt)
      else
        let (m1, root1) := del m b root
        match root1 with
        | some r => (m1, some r)
        | none =>
          match block_right m1 b with
          | none => (m1, block_left m1 b)
          | some br =>
            match block_left m1 b with
            | none => (m1, some br)
            | some _ =>
              let bmin := minimum fuel m1 br SIZE
              let (m2, r2) := deleteMin fuel m1 br SIZE
              (set_chd_ptr m2 bmin (block_left m2 b) r2, some bmin)

/-- Inner loop of small_find_fit (mm-tree-sb.c:925): scan one class
chain for the first block of sufficient size. -/
def chain_scan (fuel : Nat) (m : Mem) (awords : Nat) (cur : Option Nat) : Option Nat :=
  match fuel with
  | 0 => none
  | fuel + 1 =>
    match cur with
    | none => none
    | some b =>
      if awords ≤ block_size m b then some b
      else chain_scan fuel m awords (block_succ m b)

/-- Outer loop of small_find_fit (mm-tree-sb.c:921): scan classes from
the request's class upward. -/
def small_loop (fuel : Nat) (st : State) (awords i : Nat) : Option Nat :=
  match fuel with
  | 0 => none
  | fuel + 1 =>
    if SEG_LIST_SIZE ≤ i then none
    else
      match st.seg i with
      | none => small_loop fuel st awords (i + 1)
      | some hd =>
        match chain_scan (st.len + 1) st.mem awords (some hd) with
        | some b => some b
        | none => small_loop fuel st awords (i + 1)

/-- small_find_fit (mm-tree-sb.c:914). -/
def small_find_fit (st : State) (awords : Nat) : Option Nat :=
  small_loop SEG_LIST_SIZE st awords (find_index awords)

/-- ceiling (mm-tree-sb.c:650): for small requests first try the small
classes; otherwise (or on a small miss) do a ceiling search in the
size tree. -/
def ceiling (fuel : Nat) (st : State) (words : Nat) (root : Option Nat) : Option Nat :=
  match fuel with
  | 0 => none
  | fuel + 1 =>
    let res := if words ≤ SEG_LIST_SIZE * 2 then small_find_fit st words else none
    match res with
    | some r => some r
    | none =>
      match root with
      | none => none
      | some rt =>
        let cmp := cmp_uint words (block_size st.mem rt)
        if cmp = 0 then some rt
        else if 0 < cmp then ceiling fuel st words (block_right st.mem rt)
        else
          match ceiling fuel st words (block_left st.mem rt) with
          | some t => some t
          | none => some rt

/-- find_fit (mm-tree-sb.c:895): ceiling search, then the ADDRESS
minimum of the chosen node's ring. -/
def find_fit (st : State) (awords : Nat) : Option Nat :=
  match ceiling (st.len + 1) st awords st.segRoot with
  | none => none
  | some b => some (minimum (st.len + 1) st.mem b ADDRESS)

/-- block_insert (mm-tree-sb.c:450): route by size to the small
classes or the size tree. -/
def block_insert (st : State) (b : Nat) : State :=
  if block_size st.mem b ≤ SEG_LIST_SIZE * 2 then small_block_insert st b
  else
    let pr := put (st.len + 1) st.mem b st.segRoot
    { st with mem := pr.1, segRoot := pr.2 }

/-- block_delete (mm-tree-sb.c:463). -/
def block_delete (st : State) (b : Nat) : State :=
  if block_size st.mem b ≤ SEG_LIST_SIZE * 2 then small_block_delete st b
  else
    let pr := take (st.len + 1) st.mem b st.segRoot
    { st with mem := pr.1, segRoot := pr.2 }

/-- coalesce (mm-tree-sb.c:783): merge with free neighbors; an
allocated argument's size is first converted to free form (words-1). -/
def coalesce (st : State) (block : Nat) : State × Nat :=
  let next_block := block_next st.mem block
  let prev_free := block_prev_free st.mem block
  let next_free := block_free st.mem next_block
  let prev_block := if prev_free then block_prev st.mem block else 0
  let words0 := block_size st.mem block
  let words := if ¬ block_free st.mem block then words0 - 1 else words0
  if prev_free ∧ next_free then
    let st1 := block_delete st prev_block
    let st2 := block_delete st1 next_block
    let w := words + block_size st2.mem prev_block + block_size st2.mem next_block + 4
    let m1 := set_size st2.mem prev_block w
    let m2 := block_mark_free m1 prev_block ALLOCATED
    (block_insert { st2 with mem := m2 } prev_block, prev_block)
  else if ¬ prev_free ∧ next_free then
    let st1 := block_delete st next_block
    let w := words + block_size st1.mem next_block + 2
    let m1 := set_size st1.mem block w
    let m2 := block_mark_free m1 block ALLOCATED
    (block_insert { st1 with mem := m2 } block, block)
  else if prev_free ∧ ¬ next_free then
    let st1 := block_delete st prev_block
    let w := words + block_size st1.mem prev_block + 2
    let m1 := set_size st1.mem prev_block w
    let m2 := block_mark_free m1 prev_block ALLOCATED
    (block_insert { st1 with mem := m2 } prev_block, prev_block)
  else
    let m1 := set_size st.mem block words
    let m2 := block_mark_free m1 block ALLOCATED
    (block_insert { st with mem := m2 } block, block)

/-- extend_heap (mm-tree-sb.c:852): grow by words+1 words, write the
new free block over the old epilogue, install a new epilogue, then
coalesce.  mem_sbrk never fails in the model. -/
def extend_heap (st : State) (words0 : Nat) : State × Nat :=
  let words := words0 + 1
  let st1 : State := { st with len := st.len + words }
  let block := st.len - 1
  let m1 :=
    if block_prev_free st1.mem block then
      block_mark_free (set_size st1.mem block (words - 2)) block FREE
    else
      block_mark_free (set_size st1.mem block (words - 2)) block ALLOCATED
  let next := block_next m1 block
  let m2 := set_size m1 next 0
  let m3 := block_mark_allo m2 next FREE
  coalesce { st1 with mem := m3 } block

/-- place (mm-tree-sb.c:936): delete the chosen free block from the
index, then split it or occupy it whole. -/
def place (st : State) (block awords : Nat) : State :=
  let cwords := block_size st.mem block
  let st1 := block_delete st block
  if awords + 3 ≤ cwords then
    let m1 := set_size st1.mem block awords
    let m2 := block_mark_allo m1 block ALLOCATED
    let b2 := block_next m2 block
    let m3 := set_size m2 b2 (cwords - awords - 1)
    let m4 := block_mark_free m3 b2 ALLOCATED
    block_insert { st1 with mem := m4 } b2
  else
    let m1 := set_size st1.mem block (cwords + 1)
    let m2 := block_mark_allo m1 block ALLOCATED
    let b2 := block_next m2 block
    let m3 := block_mark_allo m2 b2 ALLOCATED
    { st1 with mem := m3 }

/-- The adjusted request size in words, as computed identically in
malloc (mm-tree-sb.c:1028-1031) and realloc (mm-tree-sb.c:1114-1117).
The arithmetic is done in size_t (64 bits); the result is stored into
an unsigned int (32 bits), hence the final reduction mod 2^32.  The
mask ~0x7 is the 64-bit value 0xFFFFFFFFFFFFFFF8. -/
def adjust_words (size : Nat) : Nat :=
  if size ≤ 12 then 3
  else (3 + (((size - 12) + 7) &&& 0xFFFFFFFFFFFFFFF8) / 4) % 2 ^ 32

/-- malloc (mm-tree-sb.c:1012): adjust the size, search the index, on
a miss extend the heap (the source's chunking conditionals all assign
ewords = awords: `if (awords > CHUNKSIZE) ewords = awords; else if (0)
ewords = awords; else ewords = awords;`, mm-tree-sb.c:1044-1049),
reduced by the size of a trailing free block when there is one. -/
def malloc (st : State) (size : Nat) : State × Option Nat :=
  let epi := epi_block st
  if size = 0 then (st, none)
  else
    let awords := adjust_words size
    match find_fit st (awords - 1) with
    | some block => (place st block awords, some (block + 1))
    | none =>
      let ewords := if CHUNKSIZE < awords then awords else awords
      let ewords :=
        if block_prev_free st.mem epi then
          let last_size := block_size st.mem (block_prev st.mem epi)
          ewords - last_size - 2
        else ewords
      let eh := extend_heap st ewords
      (place eh.1 eh.2 awords, some (eh.2 + 1))

/-- free (mm-tree-sb.c:1073): NULL is a no-op; otherwise clear the
next block's prev-alloc bit and coalesce. -/
def free (st : State) (ptr : Option Nat) : State :=
  match ptr with
  | none => st
  | some p =>
    let block := p - 1
    let nb := block_next st.mem block
    let m1 := wr st.mem nb (rd st.mem nb &&& 0x7FFFFFFF)
    (coalesce { st with mem := m1 } block).1

/-- Copy cnt words from offset src to offset dst (the memcpy of the
realloc fallback, mm-tree-sb.c:1202, whose byte count is a whole
number of words). -/
def copy_words (m : Mem) (dst src cnt : Nat) : Mem :=
  match cnt with
  | 0 => m
  | n + 1 => wr (copy_words m dst src n) (dst + n) (rd m (src + n))

/-- The malloc-copy-free fallback tail of realloc (mm-tree-sb.c:1200-1205). -/
def realloc_move (st : State) (block op size : Nat) : State × Option Nat :=
  let (st1, p) := malloc st size
  match p with
  | some q =>
    let m1 := copy_words st1.mem q op (block_size st1.mem block)
    (free { st1 with mem := m1 } (some op), some q)
  | none => (st1, none)

/-- realloc (mm-tree-sb.c:1090). -/
def realloc (st : State) (oldptr : Option Nat) (size : Nat) : State × Option Nat :=
  match oldptr with
  | none => malloc st size
  | some op =>
    if size = 0 then (free st (some op), none)
    else
      let block := op - 1
      let words := block_size st.mem block
      let nwords := adjust_words size
      if nwords = words ∨ (nwords < words ∧ words - nwords < 4) then
        (st, some op)
      else if nwords < words ∧ 4 ≤ words - nwords then
        let m1 :=
          if block_prev_free st.mem block then
            block_mark_allo (set_size st.mem block nwords) block FREE
          else
            block_mark_allo (set_size st.mem block nwords) block ALLOCATED
        let ptr := block_next m1 block
        let m2 := set_size m1 ptr (words - nwords - 2)
        let m3 := block_mark_free m2 ptr ALLOCATED
        let next := block_next m3 ptr
        if block_free m3 next then
          let st1 := block_delete { st with mem := m3 } next
          let m4 := set_size st1.mem ptr (block_size st1.mem ptr + block_size st1.mem next + 2)
          let m5 := block_mark_free m4 ptr ALLOCATED
          (block_insert { st1 with mem := m5 } ptr, some op)
        else
          let m4 := block_mark_allo m3 next FREE
          (block_insert { st with mem := m4 } ptr, some op)
      else
        let ptr := block_next st.mem block
        if block_free st.mem ptr then
          let owords := block_size st.mem ptr
          let remain : Int := (owords : Int) + 1 - ((nwords : Int) - (words : Int))
          if 3 ≤ remain then
            let st1 := block_delete st ptr
            let m1 :=
              if block_prev_free st1.mem block then
                block_mark_allo (set_size st1.mem block nwords) block FREE
              else
                block_mark_allo (set_size st1.mem block nwords) block ALLOCATED
            let p2 := block_next m1 block
            let m2 := set_size m1 p2 (remain - 1).toNat
            let m3 := block_mark_free m2 p2 ALLOCATED
            (block_insert { st1 with mem := m3 } p2, some op)
          else if 0 ≤ remain then
            let st1 := block_delete st ptr
            let m1 :=
              if block_prev_free st1.mem block then
                block_mark_allo (set_size st1.mem block (words + owords + 2)) block FREE
              else
                block_mark_allo (set_size st1.mem block (words + owords + 2)) block ALLOCATED
            let p2 := block_next m1 block
            let m2 := block_mark_allo m1 p2 ALLOCATED
            ({ st1 with mem := m2 }, some op)
          else
            realloc_move st block op size
        else
          realloc_move st block op size

/-- Zero cnt whole words starting at offset q (part of the memset of
calloc). -/
def zero_words (m : Mem) (q cnt : Nat) : Mem :=
  match cnt with
  | 0 => m
  | n + 1 => wr (zero_words m q n) (q + n) 0

/-- calloc (mm-tree-sb.c:1213): the byte count is the size_t product
nmemb * size, which wraps mod 2^64 with no overflow check; then
malloc and memset.  The memset zeroes bytes/4 whole words and, words
being little-endian, the low bytes%4 bytes of the following word.
When malloc returns NULL the C code passes NULL to memset (undefined
behavior); that path is unreachable with the unbounded oracle and is
modelled as returning NULL. -/
def calloc (st : State) (nmemb size : Nat) : State × Option Nat :=
  let bytes := nmemb * size % 2 ^ 64
  let (st1, p) := malloc st bytes
  match p with
  | some q =>
    let m1 := zero_words st1.mem q (bytes / 4)
    let m2 :=
      if bytes % 4 = 0 then m1
      else wr m1 (q + bytes / 4) (rd m1 (q + bytes / 4) / 2 ^ (8 * (bytes % 4)) * 2 ^ (8 * (bytes % 4)))
    ({ st1 with mem := m2 }, some q)
  | none => (st1, none)

/-- mm_init (mm-tree-sb.c:981): clear the index, write the zero-size
prologue and epilogue, then extend by CHUNKSIZE.  The oracle never
fails in the model, so the -1 paths are unreachable and the resulting
state is returned directly. -/
def mm_init : State :=
  let st : State := { mem := fun _ => 0, len := 2, seg := fun _ => none, segRoot := none }
  let m1 := set_size st.mem 0 0
  let m2 := set_size m1 1 0
  let m3 := block_mark_allo m2 0 ALLOCATED
  let m4 := block_mark_allo m3 1 ALLOCATED
  (extend_heap { st with mem := m4 } CHUNKSIZE).1

/-- Payload alignment test of the checker (mm-tree-sb.c:1246):
align(block+1, 8) == block+1.  heap_listp sits 48 bytes (the seg_list
array) past the 8-byte-aligned heap base, so the payload byte address
is divisible by 8 exactly when the payload word offset is even. -/
def aligned_payload (b : Nat) : Bool := (b + 1) % 2 == 0

/-- in_heap (mm-tree-sb.c:155): the pointer is at most mem_heap_hi(). -/
def in_heap (st : State) (b : Nat) : Bool := b < st.len

/-- The linear heap walk of mm_checkheap (mm-tree-sb.c:1243-1323),
including the trailing epilogue check; returns the verdict and the
number of free blocks seen.  The in_list test on a free block
(mm-tree-sb.c:1288) only prints and does not affect the verdict, so
it is omitted.  Fuel exhaustion (unreachable on the states considered)
reports -1. -/
def heap_walk (fuel : Nat) (st : State) (b cnt : Nat) : Int × Nat :=
  match fuel with
  | 0 => (-1, cnt)
  | fuel + 1 =>
    if 0 < block_size st.mem b then
      if ¬ aligned_payload b then (-1, cnt)
      else if ¬ in_heap st b then (-1, cnt)
      else
        let words := block_size st.mem b
        if words < 2 then (-1, cnt)
        else if ¬ block_free st.mem b ∧ words % 2 ≠ 1 then (-1, cnt)
        else if block_free st.mem b ∧ words % 2 ≠ 0 then (-1, cnt)
        else if block_free st.mem b then
          if rd st.mem (b + words + 1) ≠ rd st.mem b then (-1, cnt + 1)
          else if block_prev_free st.mem b ∨ block_free st.mem (block_next st.mem b) then (-1, cnt + 1)
          else heap_walk fuel st (block_next st.mem b) (cnt + 1)
        else
          if block_prev_free st.mem (block_next st.mem b) then (-1, cnt)
          else heap_walk fuel st (block_next st.mem b) cnt
    else
      if block_free st.mem b then (-1, cnt) else (0, cnt)

/-- One small-class chain of the checker's index traversal
(mm-tree-sb.c:1328-1365). -/
def small_walk (fuel : Nat) (st : State) (i : Nat) (cur : Option Nat) (cnt : Nat) : Int × Nat :=
  match fuel with
  | 0 => (-1, cnt)
  | fuel + 1 =>
    match cur with
    | none => (0, cnt)
    | some b =>
      let cnt := cnt + 1
      let pred := block_pred st.mem b
      let succ := block_succ st.mem b
      let okPred := match pred with
        | none => true
        | some p => block_succ st.mem p == some b
      let okSucc := match succ with
        | none => true
        | some s => block_pred st.mem s == some b
      if !okPred then (-1, cnt)
      else if !okSucc then (-1, cnt)
      else if ¬ in_heap st b then (-1, cnt)
      else if find_index (block_size st.mem b) ≠ i then (-1, cnt)
      else small_walk fuel st i succ cnt

/-- The outer small-class loop of the checker (mm-tree-sb.c:1325). -/
def small_lists (fuel : Nat) (st : State) (i cnt : Nat) : Int × Nat :=
  match fuel with
  | 0 => (-1, cnt)
  | fuel + 1 =>
    if SEG_LIST_SIZE ≤ i then (0, cnt)
    else
      match st.seg i with
      | none => small_lists fuel st (i + 1) cnt
      | some hd =>
        match small_walk (st.len + 1) st i (some hd) cnt with
        | (0, cnt') => small_lists fuel st (i + 1) cnt'
        | r => r

/-- check_add_tree (mm-tree-sb.c:1427): walk a same-size ring as if it
were an address-ordered tree over pred/succ, checking strict address
order and equal sizes, counting every member. -/
def check_add_tree (fuel : Nat) (st : State) (root : Option Nat) (cnt : Nat) : Int × Nat :=
  match fuel with
  | 0 => (-1, cnt)
  | fuel + 1 =>
    match root with
    | none => (0, cnt)
    | some b =>
      let cnt := cnt + 1
      let goLeft : Int × Nat :=
        match block_pred st.mem b with
        | none => (0, cnt)
        | some l =>
          if ¬ l < b then (-1, cnt)
          else if block_size st.mem l ≠ block_size st.mem b then (-1, cnt)
          else check_add_tree fuel st (some l) cnt
      match goLeft with
      | (0, cnt1) =>
        (match block_succ st.mem b with
         | none => (0, cnt1)
         | some r =>
           if ¬ b < r then (-1, cnt1)
           else if block_size st.mem r ≠ block_size st.mem b then (-1, cnt1)
           else check_add_tree fuel st (some r) cnt1)
      | r => r

/-- check_size_tree (mm-tree-sb.c:1388): check the ring at every node,
then strict size order of the children, recursively. -/
def check_size_tree (fuel : Nat) (st : State) (root : Option Nat) (cnt : Nat) : Int × Nat :=
  match fuel with
  | 0 => (-1, cnt)
  | fuel + 1 =>
    match root with
    | none => (0, cnt)
    | some b =>
      match check_add_tree (st.len + 1) st (some b) cnt with
      | (0, cnt1) =>
        let goLeft : Int × Nat :=
          match block_left st.mem b with
          | none => (0, cnt1)
          | some l =>
            if block_size st.mem b ≤ block_size st.mem l then (-1, cnt1)
            else check_size_tree fuel st (some l) cnt1
        (match goLeft with
         | (0, cnt2) =>
           (match block_right st.mem b with
            | none => (0, cnt2)
            | some r =>
              if block_size st.mem r ≤ block_size st.mem b then (-1, cnt2)
              else check_size_tree fuel st (some r) cnt2)
         | r => r)
      | r => r

/-- mm_checkheap (mm-tree-sb.c:1224): prologue checks, the heap walk,
the small-class walks, the tree walk.  The final free-count
comparison (mm-tree-sb.c:1375-1381) only prints a diagnostic: its
`return -1` is commented out in the source, so a count mismatch does
not change the verdict, and the function then returns 0. -/
def mm_checkheap (st : State) : Int :=
  if block_size st.mem 0 ≠ 0 then -1
  else if block_free st.mem 0 then -1
  else
    match heap_walk (st.len + 1) st 1 0 with
    | (0, count_iter) =>
      match small_lists (SEG_LIST_SIZE + 1) st 0 0 with
      | (0, count_small) =>
        match check_size_tree (st.len + 1) st st.segRoot count_small with
        | (0, count_list) =>
          let _ := count_list = count_iter
          0
        | _ => -1
      | _ => -1
    | _ => -1

/-- The state right after mm_init: prologue, one free block of 64
words (inserted in the size tree), epilogue; heap length 68 words. -/
def init_state : State := mm_init

/-- First step of a six-operation API trace: alloc(60), giving a
15-word allocated block at offset 1 (payload 2). -/
def demo_a : State × Option Nat := malloc init_state 60

/-- Second step: alloc(16), a 5-word guard block at offset 17. -/
def demo_b : State × Option Nat := malloc demo_a.1 16

/-- Third step: alloc(60), a 15-word block at offset 23 (payload 24). -/
def demo_c : State × Option Nat := malloc demo_b.1 60

/-- Fourth step: alloc(16), a 5-word guard block at offset 39. -/
def demo_d : State × Option Nat := malloc demo_c.1 16

/-- Fifth step: free the first 60-byte payload; offset 1 becomes a
free 14-word block, a singleton ring in the size tree. -/
def demo_e : State := free demo_d.1 demo_a.2

/-- Sixth step: free the second 60-byte payload; offset 23 becomes a
free 14-word block and is pushed onto the front of the size-14 ring,
so the ring's canonical head (23) has a ring successor (1) at a lower
address. -/
def demo_state : State := free demo_e demo_c.2

/-- The state after init and one alloc(260), which occupies the whole
initial 64-word free block: the free-set index is empty and the block
before the epilogue is allocated. -/
def full_state : State := (malloc init_state 260).1

/-- A directly constructed heap for exercising the checker: prologue,
one well-formed free block of 2 words at offset 1 (header, two link
words, footer), epilogue — but the free-set index is empty, so the
heap walk counts one free block while the index walk counts none. -/
def c9_mem : Mem := fun i =>
  [0xC0000000, 0x80000002, 0, 0, 0x80000002, 0x40000000].getD i 0

/-- The checker-input state built on c9_mem. -/
def c9_state : State := { mem := c9_mem, len := 6, seg := fun _ => none, segRoot := none }

/-- A directly constructed heap for the both-neighbors-free coalescing
scenario: prologue, free 2-word block at 1 (a singleton of small class
0), allocated 5-word block at 5, free 4-word block at 11 (a singleton
of small class 1), allocated 3-word block at 17, epilogue at 21. -/
def c4wit_state : State :=
  { mem := fun i =>
      [0xC0000000, 2147483650, 0, 0, 2147483650,
       1073741829, 0, 0, 0, 0, 0,
       2147483652, 0, 0, 0, 0, 2147483652,
       1073741827, 0, 0, 0, 0xC0000000].getD i 0,
    len := 22,
    seg := fun i => if i = 0 then some 1 else if i = 1 then some 11 else none,
    segRoot := none }

/-- A directly constructed heap for the resize-shrink scenario: a
25-word allocated block at offset 1 (prev-alloc set) followed by an
allocated 3-word block at 27; the index is empty. -/
def c5wit_state : State :=
  { mem := fun i =>
      [0xC0000000, 3221225497, 0, 0, 0, 0, 0, 0, 0, 0,
       0, 0, 0, 0, 0, 0, 0, 0, 0, 0,
       0, 0, 0, 0, 0, 0, 0,
       3221225475, 0, 0, 0, 0xC0000000].getD i 0,
    len := 32,
    seg := fun _ => none,
    segRoot := none }


/-- Abstract view of the size tree: a node carries the canonical
block's offset, its size-class key, and the offsets of the other ring
members (the succ chain hanging off the canonical head). -/
inductive BT where
  | leaf : BT
  | node (l : BT) (b : Nat) (sz : Nat) (ring : List Nat) (r : BT) : BT

/-- The size keys of a tree, in symmetric order. -/
def BT.keys : BT → List Nat
  | .leaf => []
  | .node l _ sz _ r => l.keys ++ sz :: r.keys

/-- All block offsets stored in a tree: every canonical node and every
ring member. -/
def BT.offs : BT → List Nat
  | .leaf => []
  | .node l b _ ring r => l.offs ++ b :: (ring ++ r.offs)

/-- The canonical nodes of a tree with their keys. -/
def BT.nodes : BT → List (Nat × Nat)
  | .leaf => []
  | .node l b sz _ r => l.nodes ++ (b, sz) :: r.nodes

/-- Height of the abstract tree. -/
def BT.height : BT → Nat
  | .leaf => 0
  | .node l _ _ _ r => max l.height r.height + 1

/-- The binary-search ordering of the size keys. -/
def BT.WF : BT → Prop
  | .leaf => True
  | .node l _ sz _ r =>
      (∀ k ∈ l.keys, k < sz) ∧ (∀ k ∈ r.keys, sz < k) ∧ l.WF ∧ r.WF

/-- A chain of blocks linked through their stored succ offsets. -/
inductive Chain (m : Mem) : Option Nat → List Nat → Prop where
  | nil : Chain m none []
  | cons (b : Nat) (rest : List Nat) (h : Chain m (block_succ m b) rest) :
      Chain m (some b) (b :: rest)

/-- The stored size tree realizes an abstract tree: at every node the
canonical block has the node's key as size, a NULL pred, a ring of
equally sized members behind it, and subtrees through the child
offsets. -/
inductive TreeRep (m : Mem) : Option Nat → BT → Prop where
  | leaf : TreeRep m none .leaf
  | node (b sz : Nat) (ring : List Nat) (l r : BT)
      (hsz : block_size m b = sz)
      (hpred : block_pred m b = none)
      (hring : Chain m (block_succ m b) ring)
      (hrsz : ∀ x ∈ ring, block_size m x = sz)
      (hl : TreeRep m (block_left m b) l)
      (hr : TreeRep m (block_right m b) r) :
      TreeRep m (some b) (.node l b sz ring r)

/-- Witness heap: prologue, one free 14-word tree block at offset 1
with empty links, its footer, epilogue; empty small classes, root 1. -/
def c2wit_state : State :=
  { mem := fun i =>
      [0xC0000000, 0x8000000E, 0, 0, 0, 0, 0, 0,
       0, 0, 0, 0, 0, 0, 0, 14, 0xC0000000].getD i 0,
    len := 17,
    seg := fun _ => none,
    segRoot := some 1 }
end MM

namespace MM

/-- Bits at or above the bound of a value are clear. -/
theorem testBit_ge (x n i : Nat) (hx : x < 2 ^ n) (hi : n ≤ i) : x.testBit i = false :=
  Nat.testBit_lt_two_pow (lt_of_lt_of_le hx (Nat.pow_le_pow_right (by norm_num) hi))

/-- The size mask: and with 0x3FFFFFFF is reduction mod 2^30. -/
theorem and_3FFFFFFF (h : Nat) : h &&& 0x3FFFFFFF = h % 2 ^ 30 := by
  have e : (0x3FFFFFFF : Nat) = 2 ^ 30 - 1 := by norm_num
  rw [e, Nat.and_pow_two_sub_one_eq_mod]

/-- The prev-alloc clear mask of free() : and with 0x7FFFFFFF is
reduction mod 2^31. -/
theorem and_7FFFFFFF (h : Nat) : h &&& 0x7FFFFFFF = h % 2 ^ 31 := by
  have e : (0x7FFFFFFF : Nat) = 2 ^ 31 - 1 := by norm_num
  rw [e, Nat.and_pow_two_sub_one_eq_mod]

/-- Extracting the alloc bit. -/
theorem and_40000000 (h : Nat) (hh : h < 2 ^ 32) :
    h &&& 0x40000000 = h / 2 ^ 30 % 2 * 2 ^ 30 := by
  apply Nat.eq_of_testBit_eq
  intro i
  rcases Nat.lt_or_ge i 32 with hi | hi
  · rw [Bool.eq_iff_iff, Nat.testBit_and]
    simp only [Nat.testBit_to_div_mod, Bool.and_eq_true, decide_eq_true_eq]
    interval_cases i <;> omega
  · have h1 : (h &&& 0x40000000).testBit i = false := by
      rw [Nat.testBit_and, testBit_ge h 32 i hh hi]
      rfl
    have h2 : (h / 2 ^ 30 % 2 * 2 ^ 30).testBit i = false :=
      testBit_ge _ 32 i (by omega) hi
    rw [h1, h2]

/-- Extracting the prev-alloc bit. -/
theorem and_80000000 (h : Nat) (hh : h < 2 ^ 32) :
    h &&& 0x80000000 = h / 2 ^ 31 % 2 * 2 ^ 31 := by
  apply Nat.eq_of_testBit_eq
  intro i
  rcases Nat.lt_or_ge i 32 with hi | hi
  · rw [Bool.eq_iff_iff, Nat.testBit_and]
    simp only [Nat.testBit_to_div_mod, Bool.and_eq_true, decide_eq_true_eq]
    interval_cases i <;> omega
  · have h1 : (h &&& 0x80000000).testBit i = false := by
      rw [Nat.testBit_and, testBit_ge h 32 i hh hi]
      rfl
    have h2 : (h / 2 ^ 31 % 2 * 2 ^ 31).testBit i = false :=
      testBit_ge _ 32 i (by omega) hi
    rw [h1, h2]

/-- The header transform of block_mark_allo with ALLOCATED. -/
theorem or_C0000000 (h : Nat) (hh : h < 2 ^ 32) :
    h ||| 0xC0000000 = h % 2 ^ 30 + 0xC0000000 := by
  apply Nat.eq_of_testBit_eq
  intro i
  rcases Nat.lt_or_ge i 32 with hi | hi
  · rw [Bool.eq_iff_iff, Nat.testBit_or]
    simp only [Nat.testBit_to_div_mod, Bool.or_eq_true, decide_eq_true_eq]
    interval_cases i <;> omega
  · have h1 : (h ||| 0xC0000000).testBit i = false := by
      rw [Nat.testBit_or, testBit_ge h 32 i hh hi,
        testBit_ge 0xC0000000 32 i (by norm_num) hi]
      rfl
    have h2 : (h % 2 ^ 30 + 0xC0000000).testBit i = false :=
      testBit_ge _ 32 i (by omega) hi
    rw [h1, h2]

/-- The header transform of block_mark_allo with FREE. -/
theorem or40_and7F (h : Nat) (hh : h < 2 ^ 32) :
    (h ||| 0x40000000) &&& 0x7FFFFFFF = h % 2 ^ 30 + 0x40000000 := by
  apply Nat.eq_of_testBit_eq
  intro i
  rcases Nat.lt_or_ge i 32 with hi | hi
  · rw [Bool.eq_iff_iff, Nat.testBit_and, Nat.testBit_or]
    simp only [Nat.testBit_to_div_mod, Bool.and_eq_true, Bool.or_eq_true, decide_eq_true_eq]
    interval_cases i <;> omega
  · have h1 : ((h ||| 0x40000000) &&& 0x7FFFFFFF).testBit i = false := by
      rw [Nat.testBit_and, Nat.testBit_or, testBit_ge h 32 i hh hi,
        testBit_ge 0x40000000 32 i (by norm_num) hi]
      rfl
    have h2 : (h % 2 ^ 30 + 0x40000000).testBit i = false :=
      testBit_ge _ 32 i (by omega) hi
    rw [h1, h2]

/-- The header transform of block_mark_free with ALLOCATED. -/
theorem or80_andBF (h : Nat) (hh : h < 2 ^ 32) :
    (h ||| 0x80000000) &&& 0xBFFFFFFF = h % 2 ^ 30 + 0x80000000 := by
  apply Nat.eq_of_testBit_eq
  intro i
  rcases Nat.lt_or_ge i 32 with hi | hi
  · rw [Bool.eq_iff_iff, Nat.testBit_and, Nat.testBit_or]
    simp only [Nat.testBit_to_div_mod, Bool.and_eq_true, Bool.or_eq_true, decide_eq_true_eq]
    interval_cases i <;> omega
  · have h1 : ((h ||| 0x80000000) &&& 0xBFFFFFFF).testBit i = false := by
      rw [Nat.testBit_and, Nat.testBit_or, testBit_ge h 32 i hh hi,
        testBit_ge 0x80000000 32 i (by norm_num) hi]
      rfl
    have h2 : (h % 2 ^ 30 + 0x80000000).testBit i = false :=
      testBit_ge _ 32 i (by omega) hi
    rw [h1, h2]

/-- The alignment mask of adjust_words: and with ~0x7 (as a 64-bit
value) rounds down to a multiple of 8. -/
theorem and_highmask64 (h : Nat) (hh : h < 2 ^ 64) :
    h &&& 0xFFFFFFFFFFFFFFF8 = h - h % 8 := by
  apply Nat.eq_of_testBit_eq
  intro i
  rcases Nat.lt_or_ge i 64 with hi | hi
  · rw [Bool.eq_iff_iff, Nat.testBit_and]
    simp only [Nat.testBit_to_div_mod, Bool.and_eq_true, decide_eq_true_eq]
    interval_cases i <;> omega
  · have h1 : (h &&& 0xFFFFFFFFFFFFFFF8).testBit i = false := by
      rw [Nat.testBit_and, testBit_ge h 64 i hh hi]
      rfl
    have h2 : (h - h % 8).testBit i = false := testBit_ge _ 64 i (by omega) hi
    rw [h1, h2]

end MM

namespace MM

/-- C1: the claim says that after every finite sequence of API calls
from a freshly initialized heap the invariant checker returns 0.  The
code violates it: after init; alloc(60); alloc(16); alloc(60);
alloc(16); free(first payload); free(third payload) the checker
returns -1 (the size-14 ring holds the canonical head at offset 23
whose ring successor is offset 1, and check_add_tree demands strictly
increasing addresses along the ring, which the LIFO insertion of
`add` does not maintain), while it returns 0 after every proper
prefix of the trace. -/
theorem c1_checkheap_fails_on_api_trace :
    mm_checkheap demo_state = -1 ∧
    mm_checkheap init_state = 0 ∧ mm_checkheap demo_a.1 = 0 ∧
    mm_checkheap demo_b.1 = 0 ∧ mm_checkheap demo_c.1 = 0 ∧
    mm_checkheap demo_d.1 = 0 ∧ mm_checkheap demo_e = 0 := by
  decide

/-- C2 (counterexample): find_fit does not return the lowest-address
free block of the chosen size class.  In demo_state the size tree
root 45 has left child 23, the canonical head of the size-14 ring,
whose ring successor is the free 14-word block at offset 1; find_fit
14 returns 23 even though 1 < 23 and block 1 is an equally sized free
block in the same class of the index. -/
theorem c2_find_fit_not_lowest_address :
    find_fit demo_state 14 = some 23 ∧
    demo_state.segRoot = some 45 ∧ block_left demo_state.mem 45 = some 23 ∧
    block_succ demo_state.mem 23 = some 1 ∧
    block_size demo_state.mem 23 = 14 ∧ block_size demo_state.mem 1 = 14 ∧
    block_free demo_state.mem 1 = true ∧ (1 : Nat) < 23 := by
  decide

/-- C3: the claim says zero_alloc(n, m) returns null whenever n*m
overflows size_t.  calloc (mm-tree-sb.c:1213-1221) performs no
overflow check: with nmemb = 2^63 + 1 and size = 2 the size_t product
wraps to 2 bytes, malloc(2) succeeds, and calloc returns the non-null
payload at offset 2. -/
theorem c3_calloc_overflow_returns_non_null :
    2 ^ 64 < (2 ^ 63 + 1) * 2 ∧
    (2 ^ 63 + 1) * 2 % 2 ^ 64 = 2 ∧
    (calloc init_state (2 ^ 63 + 1) 2).2 = some 2 := by
  decide

/-- C6 (counterexample): the claim says a malloc miss extends the heap
by max(awords, CHUNK) words with CHUNK between 64 and 4096.  In
full_state the index is empty, so malloc(16) (awords = 5) misses and
extends the heap from 68 to 74 words, i.e. by 6 words including the
new epilogue word — less than any CHUNK the claim permits, because
every branch of the source's chunking conditional assigns ewords =
awords (mm-tree-sb.c:1044-1049). -/
theorem c6_extension_ignores_chunk :
    find_fit full_state 4 = none ∧
    adjust_words 16 = 5 ∧
    full_state.len = 68 ∧
    (malloc full_state 16).1.len = 74 ∧
    74 - 68 < 64 := by
  decide

/-- C9: the claim says the checker returns -1 when the free count
from the heap walk differs from the free count of the index walk, or
when a free heap block is missing from the index.  On c9_state the
heap walk sees one well-formed free block, the index is entirely
empty (all six class heads and the tree root are NULL), and
mm_checkheap still returns 0, because the source's `return -1` in the
count-mismatch branch is commented out (mm-tree-sb.c:1375-1381) and
the in_list membership test only prints (mm-tree-sb.c:1286-1294). -/
theorem c9_checkheap_ignores_missing_free_block :
    mm_checkheap c9_state = 0 ∧
    block_free c9_state.mem 1 = true ∧ block_size c9_state.mem 1 = 2 ∧
    c9_state.segRoot = none ∧
    c9_state.seg 0 = none ∧ c9_state.seg 1 = none ∧ c9_state.seg 2 = none ∧
    c9_state.seg 3 = none ∧ c9_state.seg 4 = none ∧ c9_state.seg 5 = none := by
  decide

end MM

namespace MM

/-- C7 (counterexample): the claim's formula awords = 3 + ceil((n-12)/8)*2
fails for n = 2^35 + 12: the source stores the size_t computation into
the 32-bit variable awords (mm-tree-sb.c:1014, 1031), so the computed
value wraps to 3, not 2^33 + 3. -/
theorem c7_awords_truncates :
    adjust_words (2 ^ 35 + 12) = 3 ∧
    3 + 2 * (((2 ^ 35 + 12) - 12 + 7) / 8) = 2 ^ 33 + 3 ∧
    (3 : Nat) ≠ 2 ^ 33 + 3 := by
  decide

/-- C7 (amended): for every request n below 2^64, the adjusted size is
3 words when n ≤ 12 and (3 + ceil((n-12)/8)*2) mod 2^32 otherwise
(the mod 2^32 reduction is forced by the unsigned int variable and
only matters for n ≥ 2^35); and whenever find_fit succeeds at
awords - 1, malloc consults it exactly there and places its result,
i.e. the find_fit call is passed awords - 1. -/
theorem c7_adjusted_size (n : Nat) (st : State) (b : Nat) (hn : n < 2 ^ 64) :
    adjust_words n = (if n ≤ 12 then 3 else (3 + 2 * ((n - 12 + 7) / 8)) % 2 ^ 32) ∧
    (0 < n → find_fit st (adjust_words n - 1) = some b →
      malloc st n = (place st b (adjust_words n), some (b + 1))) := by
  constructor
  · unfold adjust_words
    by_cases h12 : n ≤ 12
    · simp [h12]
    · rw [if_neg h12, if_neg h12]
      have hb : n - 12 + 7 < 2 ^ 64 := by omega
      rw [and_highmask64 _ hb]
      have e1 : (n - 12 + 7) - (n - 12 + 7) % 8 = 8 * ((n - 12 + 7) / 8) := by omega
      rw [e1]
      have e2 : 8 * ((n - 12 + 7) / 8) / 4 = 2 * ((n - 12 + 7) / 8) := by omega
      rw [e2]
  · intro hpos hfit
    unfold malloc
    simp only [if_neg (by omega : ¬ n = 0), hfit]

/-- C7 (witness): the amended theorem applied at n = 60 on the
freshly initialized heap, where find_fit at awords - 1 = 14 returns
the 64-word free block at offset 1. -/
theorem c7_adjusted_size_witness :
    (adjust_words 60 = (if (60 : Nat) ≤ 12 then 3 else (3 + 2 * ((60 - 12 + 7) / 8)) % 2 ^ 32) ∧
      (0 < 60 → find_fit init_state (adjust_words 60 - 1) = some 1 →
        malloc init_state 60 = (place init_state 1 (adjust_words 60), some (1 + 1)))) ∧
    find_fit init_state (adjust_words 60 - 1) = some 1 := by
  exact ⟨c7_adjusted_size 60 init_state 1 (by norm_num), by decide⟩

/-- C8: alloc(0) returns null with the state unchanged; free(null) is
a no-op; resize(null, n) is exactly alloc(n); and resize(p, 0) is
exactly free(p) and returns null (mm-tree-sb.c:1022-1024, 1076-1077,
1092-1097). -/
theorem c8_trivial_arguments (st : State) (n p : Nat) :
    malloc st 0 = (st, none) ∧
    free st none = st ∧
    realloc st none n = malloc st n ∧
    realloc st (some p) 0 = (free st (some p), none) := by
  exact ⟨rfl, rfl, rfl, rfl⟩

end MM

namespace MM

/-- small_block_insert does not change the heap length. -/
theorem small_block_insert_len (st : State) (b : Nat) :
    (small_block_insert st b).len = st.len := by
  unfold small_block_insert
  dsimp only
  split <;> rfl

/-- small_block_delete does not change the heap length. -/
theorem small_block_delete_len (st : State) (b : Nat) :
    (small_block_delete st b).len = st.len := by
  unfold small_block_delete
  dsimp only
  split <;> rfl

/-- block_insert does not change the heap length. -/
theorem block_insert_len (st : State) (b : Nat) :
    (block_insert st b).len = st.len := by
  unfold block_insert
  split
  · exact small_block_insert_len st b
  · rfl

/-- block_delete does not change the heap length. -/
theorem block_delete_len (st : State) (b : Nat) :
    (block_delete st b).len = st.len := by
  unfold block_delete
  split
  · exact small_block_delete_len st b
  · rfl

/-- coalesce does not change the heap length. -/
theorem coalesce_len (st : State) (b : Nat) : (coalesce st b).1.len = st.len := by
  unfold coalesce
  dsimp only
  split_ifs <;> simp [block_insert_len, block_delete_len]

/-- place does not change the heap length. -/
theorem place_len (st : State) (b aw : Nat) : (place st b aw).len = st.len := by
  unfold place
  dsimp only
  split_ifs <;> simp [block_insert_len, block_delete_len]

/-- extend_heap grows the heap by exactly its argument plus the one
word of the new epilogue. -/
theorem extend_heap_len (st : State) (w : Nat) :
    (extend_heap st w).1.len = st.len + (w + 1) := by
  unfold extend_heap
  dsimp only
  split_ifs <;> rw [coalesce_len]

/-- C6 (amended): whenever alloc misses in the index, the heap is
extended by exactly awords words plus one word for the new epilogue,
the awords reduced by (tail size + 2) when the block before the old
epilogue is free; the max with CHUNKSIZE is never applied, because
every branch of the chunking conditional assigns ewords = awords. -/
theorem c6_miss_extension (st : State) (size : Nat)
    (hsz : size ≠ 0)
    (hmiss : find_fit st (adjust_words size - 1) = none) :
    (malloc st size).1.len =
      st.len +
        ((if block_prev_free st.mem (epi_block st) then
            adjust_words size - block_size st.mem (block_prev st.mem (epi_block st)) - 2
          else adjust_words size) + 1) := by
  unfold malloc
  simp only [if_neg hsz, hmiss, ite_self]
  split_ifs with h <;>
    simp [place_len, extend_heap_len]

/-- C6 (amended, witness): on full_state (empty index, allocated block
before the epilogue), malloc(16) misses and extends the heap by
awords + 1 = 6 words. -/
theorem c6_miss_extension_witness :
    (malloc full_state 16).1.len =
      full_state.len +
        ((if block_prev_free full_state.mem (epi_block full_state) then
            adjust_words 16 - block_size full_state.mem (block_prev full_state.mem (epi_block full_state)) - 2
          else adjust_words 16) + 1) :=
  c6_miss_extension full_state 16 (by norm_num) (by decide)

end MM

namespace MM

/-- Reading back a write at the written offset. -/
theorem rd_wr_eq (m : Mem) (i v : Nat) : rd (wr m i v) i = v := by
  simp [rd, wr]

/-- Reading back a write elsewhere. -/
theorem rd_wr_ne (m : Mem) (i v j : Nat) (h : j ≠ i) : rd (wr m i v) j = rd m j := by
  simp [rd, wr, h]

/-- Size field of a decomposed header. -/
theorem hdr_size (m : Mem) (x s f pb : Nat) (h : rd m x = s + f * 2 ^ 30 + pb * 2 ^ 31)
    (hs : s < 2 ^ 30) (hf : f ≤ 1) (hpb : pb ≤ 1) : block_size m x = s := by
  unfold block_size
  rw [h, and_3FFFFFFF]
  interval_cases f <;> interval_cases pb <;> omega

/-- Alloc bit of a decomposed header. -/
theorem hdr_free (m : Mem) (x s f pb : Nat) (h : rd m x = s + f * 2 ^ 30 + pb * 2 ^ 31)
    (hs : s < 2 ^ 30) (hf : f ≤ 1) (hpb : pb ≤ 1) : block_free m x = (f == 0) := by
  unfold block_free
  rw [h, and_40000000 _ (by omega)]
  have e : (s + f * 2 ^ 30 + pb * 2 ^ 31) / 2 ^ 30 % 2 = f := by omega
  rw [e]
  interval_cases f <;> decide

/-- Prev-alloc bit of a decomposed header. -/
theorem hdr_prev_free (m : Mem) (x s f pb : Nat) (h : rd m x = s + f * 2 ^ 30 + pb * 2 ^ 31)
    (hs : s < 2 ^ 30) (hf : f ≤ 1) (hpb : pb ≤ 1) : block_prev_free m x = (pb == 0) := by
  unfold block_prev_free
  rw [h, and_80000000 _ (by omega)]
  have e : (s + f * 2 ^ 30 + pb * 2 ^ 31) / 2 ^ 31 % 2 = pb := by omega
  rw [e]
  interval_cases pb <;> decide

/-- block_next of an allocated decomposed header. -/
theorem hdr_next_alloc (m : Mem) (x s pb : Nat) (h : rd m x = s + 1 * 2 ^ 30 + pb * 2 ^ 31)
    (hs : s < 2 ^ 30) (hpb : pb ≤ 1) : block_next m x = x + s + 1 := by
  unfold block_next
  rw [hdr_free m x s 1 pb h hs (by norm_num) hpb, hdr_size m x s 1 pb h hs (by norm_num) hpb]
  simp

/-- block_next of a free decomposed header. -/
theorem hdr_next_free (m : Mem) (x s pb : Nat) (h : rd m x = s + 0 * 2 ^ 30 + pb * 2 ^ 31)
    (hs : s < 2 ^ 30) (hpb : pb ≤ 1) : block_next m x = x + s + 2 := by
  unfold block_next
  rw [hdr_free m x s 0 pb h hs (by norm_num) hpb, hdr_size m x s 0 pb h hs (by norm_num) hpb]
  simp

/-- block_mark_free with ALLOCATED on a decomposed header. -/
theorem mark_free_alloc_hdr (m : Mem) (x s f pb : Nat)
    (h : rd m x = s + f * 2 ^ 30 + pb * 2 ^ 31)
    (hs : s < 2 ^ 30) (hf : f ≤ 1) (hpb : pb ≤ 1) :
    block_mark_free m x ALLOCATED = wr (wr m x (s + 2 ^ 31)) (x + s + 1) (s + 2 ^ 31) := by
  unfold block_mark_free
  dsimp only
  rw [hdr_size m x s f pb h hs hf hpb, h]
  have e0 : (ALLOCATED == 0) = true := by decide
  rw [e0]
  have e1 : ((s + f * 2 ^ 30 + pb * 2 ^ 31 ||| 0x80000000) &&& 0xBFFFFFFF) = s + 2 ^ 31 := by
    rw [or80_andBF _ (by omega)]
    omega
  rw [e1]
  have e2 : x + (s + 1) = x + s + 1 := by omega
  rw [e2]
  simp

/-- block_mark_allo with ALLOCATED on a decomposed header. -/
theorem mark_allo_alloc_hdr (m : Mem) (x s f pb : Nat)
    (h : rd m x = s + f * 2 ^ 30 + pb * 2 ^ 31)
    (hs : s < 2 ^ 30) (hf : f ≤ 1) (hpb : pb ≤ 1) :
    block_mark_allo m x ALLOCATED = wr m x (s + 0xC0000000) := by
  unfold block_mark_allo
  dsimp only
  have e0 : (ALLOCATED == 0) = true := by decide
  rw [e0, h]
  have e1 : (s + f * 2 ^ 30 + pb * 2 ^ 31 ||| 0xC0000000) = s + 0xC0000000 := by
    rw [or_C0000000 _ (by omega)]
    omega
  rw [e1]
  simp

/-- block_mark_allo with FREE on a decomposed header. -/
theorem mark_allo_free_hdr (m : Mem) (x s f pb : Nat)
    (h : rd m x = s + f * 2 ^ 30 + pb * 2 ^ 31)
    (hs : s < 2 ^ 30) (hf : f ≤ 1) (hpb : pb ≤ 1) :
    block_mark_allo m x FREE = wr m x (s + 0x40000000) := by
  unfold block_mark_allo
  dsimp only
  have e0 : (FREE == 0) = false := by decide
  rw [e0, h]
  have e1 : ((s + f * 2 ^ 30 + pb * 2 ^ 31 ||| 0x40000000) &&& 0x7FFFFFFF) = s + 0x40000000 := by
    rw [or40_and7F _ (by omega)]
    omega
  rw [e1]
  simp

/-- put with remaining fuel and an empty root: the base case of the
tree insertion. -/
theorem put_succ_none (fuel : Nat) (m : Mem) (x : Nat) :
    put (fuel + 1) m x none =
      (if 4 <= block_size (set_ptr m x none none) x
        then set_chd_ptr (set_ptr m x none none) x none none
        else set_ptr m x none none, some x) := by
  rfl

/-- block_insert of a tree-sized free block into an empty tree. -/
theorem block_insert_tree_base (st : State) (x w : Nat)
    (hw : rd st.mem x = w + 2 ^ 31) (hwB : w < 2 ^ 30) (hw12 : 12 < w)
    (hRoot : st.segRoot = none) :
    block_insert st x =
      { mem := wr (wr (wr (wr st.mem (x + 1) 0) (x + 2) 0) (x + 3) 0) (x + 4) 0,
        len := st.len, seg := st.seg, segRoot := some x } := by
  have hdr : rd st.mem x = w + 0 * 2 ^ 30 + 1 * 2 ^ 31 := by rw [hw]; ring
  have hsz : block_size st.mem x = w := hdr_size _ _ w 0 1 hdr hwB (by norm_num) (by norm_num)
  unfold block_insert
  rw [hsz, if_neg (by unfold SEG_LIST_SIZE; omega : ¬ w <= SEG_LIST_SIZE * 2), hRoot,
    put_succ_none]
  have r4 : rd (set_ptr st.mem x none none) x = w + 0 * 2 ^ 30 + 1 * 2 ^ 31 := by
    unfold set_ptr
    dsimp only
    rw [rd_wr_ne _ _ _ _ (by omega), rd_wr_ne _ _ _ _ (by omega), hw]; ring
  have hsz4 : block_size (set_ptr st.mem x none none) x = w :=
    hdr_size _ _ w 0 1 r4 hwB (by norm_num) (by norm_num)
  rw [hsz4, if_pos (by omega : 4 <= w)]
  unfold set_chd_ptr set_ptr
  rfl

/-- The full effect of free on a block whose two contiguous neighbors
are free singleton small-class blocks while the size tree is empty:
the exact resulting state (case 4 of coalesce, mm-tree-sb.c:799-811).
The block being freed is the allocated block at offset p + a + 2 with
payload p + a + 3; its free neighbors sit at p (size a) and
p + a + b + 3 (size c), and the allocated block at p + a + b + c + 5
(size d) follows. -/
theorem free_both_free_state
    (st : State) (p a b c d : Nat)
    (ha2 : 2 <= a) (ha12 : a <= 12) (hae : a % 2 = 0)
    (hb3 : 3 <= b) (hbo : b % 2 = 1) (hbB : b < 2 ^ 29)
    (hc2 : 2 <= c) (hc12 : c <= 12) (hce : c % 2 = 0)
    (hdB : d < 2 ^ 30)
    (hM : 12 < a + (b - 1) + c + 4)
    (hRoot : st.segRoot = none)
    (hP : rd st.mem p = a + 2 ^ 31)
    (hPl1 : rd st.mem (p + 1) = 0) (hPl2 : rd st.mem (p + 2) = 0)
    (hPf : rd st.mem (p + a + 1) = a + 2 ^ 31)
    (hB : rd st.mem (p + a + 2) = b + 2 ^ 30)
    (hN : rd st.mem (p + a + b + 3) = c + 2 ^ 31)
    (hNl1 : rd st.mem (p + a + b + 4) = 0) (hNl2 : rd st.mem (p + a + b + 5) = 0)
    (hF : rd st.mem (p + a + b + c + 5) = d + 2 ^ 30) :
    free st (some (p + a + 3)) =
      { mem := wr (wr (wr (wr (wr (wr (wr (wr st.mem (p + a + b + 3) c)
                  p (b - 1 + a + c + 4))
                  p (b - 1 + a + c + 4 + 2 ^ 31))
                  (p + (b - 1 + a + c + 4) + 1) (b - 1 + a + c + 4 + 2 ^ 31))
                  (p + 1) 0) (p + 2) 0) (p + 3) 0) (p + 4) 0,
        len := st.len,
        seg := segSet (segSet st.seg ((a - 2) / 2) none) ((c - 2) / 2) none,
        segRoot := some p } := by
  have e31 : p + a + 3 - 1 = p + a + 2 := by omega
  have hBhdr : rd st.mem (p + a + 2) = b + 1 * 2 ^ 30 + 0 * 2 ^ 31 := by rw [hB]; ring
  have hBn : block_next st.mem (p + a + 2) = p + a + b + 3 := by
    rw [hdr_next_alloc st.mem _ b 0 hBhdr (by omega) (by norm_num)]; omega
  have hrdN : rd st.mem (p + a + b + 3) &&& 2147483647 = c := by
    rw [hN, and_7FFFFFFF]; omega
  unfold free
  dsimp only
  rw [e31, hBn, hrdN]
  -- facts about m1 := wr st.mem (p + a + b + 3) c
  have rP : rd (wr st.mem (p + a + b + 3) c) p = a + 0 * 2 ^ 30 + 1 * 2 ^ 31 := by
    rw [rd_wr_ne _ _ _ _ (by omega), hP]; ring
  have rPf : rd (wr st.mem (p + a + b + 3) c) (p + a + 1) = a + 0 * 2 ^ 30 + 1 * 2 ^ 31 := by
    rw [rd_wr_ne _ _ _ _ (by omega), hPf]; ring
  have rB : rd (wr st.mem (p + a + b + 3) c) (p + a + 2) = b + 1 * 2 ^ 30 + 0 * 2 ^ 31 := by
    rw [rd_wr_ne _ _ _ _ (by omega), hB]; ring
  have rN : rd (wr st.mem (p + a + b + 3) c) (p + a + b + 3) = c + 0 * 2 ^ 30 + 0 * 2 ^ 31 := by
    rw [rd_wr_eq]; ring
  have rPl1 : rd (wr st.mem (p + a + b + 3) c) (p + 1) = 0 := by
    rw [rd_wr_ne _ _ _ _ (by omega), hPl1]
  have rPl2 : rd (wr st.mem (p + a + b + 3) c) (p + 2) = 0 := by
    rw [rd_wr_ne _ _ _ _ (by omega), hPl2]
  have rNl1 : rd (wr st.mem (p + a + b + 3) c) (p + a + b + 4) = 0 := by
    rw [rd_wr_ne _ _ _ _ (by omega), hNl1]
  have rNl2 : rd (wr st.mem (p + a + b + 3) c) (p + a + b + 5) = 0 := by
    rw [rd_wr_ne _ _ _ _ (by omega), hNl2]
  have cnx : block_next (wr st.mem (p + a + b + 3) c) (p + a + 2) = p + a + b + 3 := by
    rw [hdr_next_alloc _ _ b 0 rB (by omega) (by norm_num)]; omega
  have cpf : block_prev_free (wr st.mem (p + a + b + 3) c) (p + a + 2) = true := by
    rw [hdr_prev_free _ _ b 1 0 rB (by omega) (by norm_num) (by norm_num)]
    rfl
  have cfB : block_free (wr st.mem (p + a + b + 3) c) (p + a + 2) = false := by
    rw [hdr_free _ _ b 1 0 rB (by omega) (by norm_num) (by norm_num)]
    rfl
  have cfN : block_free (wr st.mem (p + a + b + 3) c) (p + a + b + 3) = true := by
    rw [hdr_free _ _ c 0 0 rN (by omega) (by norm_num) (by norm_num)]
    rfl
  have csB : block_size (wr st.mem (p + a + b + 3) c) (p + a + 2) = b :=
    hdr_size _ _ b 1 0 rB (by omega) (by norm_num) (by norm_num)
  have csP : block_size (wr st.mem (p + a + b + 3) c) p = a :=
    hdr_size _ _ a 0 1 rP (by omega) (by norm_num) (by norm_num)
  have csN : block_size (wr st.mem (p + a + b + 3) c) (p + a + b + 3) = c :=
    hdr_size _ _ c 0 0 rN (by omega) (by norm_num) (by norm_num)
  have cprev : block_prev (wr st.mem (p + a + b + 3) c) (p + a + 2) = p := by
    unfold block_prev
    have e1 : p + a + 2 - 1 = p + a + 1 := by omega
    rw [e1, hdr_size _ _ a 0 1 rPf (by omega) (by norm_num) (by norm_num)]
    omega
  have predP : block_pred (wr st.mem (p + a + b + 3) c) p = none := by
    unfold block_pred
    dsimp only
    rw [rPl1]
    rfl
  have succP : block_succ (wr st.mem (p + a + b + 3) c) p = none := by
    unfold block_succ
    dsimp only
    rw [rPl2]
    rfl
  have predN : block_pred (wr st.mem (p + a + b + 3) c) (p + a + b + 3) = none := by
    unfold block_pred
    dsimp only
    rw [rNl1]
    rfl
  have succN : block_succ (wr st.mem (p + a + b + 3) c) (p + a + b + 3) = none := by
    unfold block_succ
    dsimp only
    rw [rNl2]
    rfl
  have d1 : block_delete
      { mem := wr st.mem (p + a + b + 3) c, len := st.len, seg := st.seg, segRoot := st.segRoot } p =
      { mem := wr st.mem (p + a + b + 3) c, len := st.len,
        seg := segSet st.seg ((a - 2) / 2) none, segRoot := st.segRoot } := by
    unfold block_delete
    dsimp only
    rw [csP, if_pos (by unfold SEG_LIST_SIZE; omega : a <= SEG_LIST_SIZE * 2)]
    unfold small_block_delete
    dsimp only
    rw [predP, succP, csP]
    rfl
  have d2 : block_delete
      { mem := wr st.mem (p + a + b + 3) c, len := st.len,
        seg := segSet st.seg ((a - 2) / 2) none, segRoot := st.segRoot } (p + a + b + 3) =
      { mem := wr st.mem (p + a + b + 3) c, len := st.len,
        seg := segSet (segSet st.seg ((a - 2) / 2) none) ((c - 2) / 2) none,
        segRoot := st.segRoot } := by
    unfold block_delete
    dsimp only
    rw [csN, if_pos (by unfold SEG_LIST_SIZE; omega : c <= SEG_LIST_SIZE * 2)]
    unfold small_block_delete
    dsimp only
    rw [predN, succN, csN]
    rfl
  unfold coalesce
  dsimp only
  rw [cnx, cpf, cfN, cfB, cprev, csB]
  simp only [eq_self_iff_true, and_self, if_true, Bool.false_eq_true, not_false_eq_true]
  rw [d1, d2]
  dsimp only
  rw [csP, csN]
  unfold set_size
  have r2P : rd (wr (wr st.mem (p + a + b + 3) c) p (b - 1 + a + c + 4)) p
      = (b - 1 + a + c + 4) + 0 * 2 ^ 30 + 0 * 2 ^ 31 := by
    rw [rd_wr_eq]; ring
  rw [mark_free_alloc_hdr _ p (b - 1 + a + c + 4) 0 0 r2P (by omega) (by norm_num) (by norm_num)]
  rw [block_insert_tree_base _ p (b - 1 + a + c + 4)
      (by dsimp only; rw [rd_wr_ne _ _ _ _ (by omega), rd_wr_eq])
      (by omega) (by omega) (by dsimp only; exact hRoot)]

/-- C4: freeing a block whose two contiguous neighbors are both free
deletes both neighbors from the index and produces one free block at
the previous neighbor's address of size prev.size + B.size + next.size
+ 4 with B.size taken in free form (b - 1 for the allocated size b),
writes its footer identical to its header, inserts it into the index
(the size tree root becomes the merged block), and the prev_alloc bit
of the block following the merged result is 0 (block_prev_free holds
there). -/
theorem c4_free_coalesces_both_neighbors
    (st : State) (p a b c d : Nat)
    (ha2 : 2 ≤ a) (ha12 : a ≤ 12) (hae : a % 2 = 0)
    (hb3 : 3 ≤ b) (hbo : b % 2 = 1) (hbB : b < 2 ^ 29)
    (hc2 : 2 ≤ c) (hc12 : c ≤ 12) (hce : c % 2 = 0)
    (hdB : d < 2 ^ 30)
    (hM : 12 < a + (b - 1) + c + 4)
    (hRoot : st.segRoot = none)
    (hP : rd st.mem p = a + 2 ^ 31)
    (hPl1 : rd st.mem (p + 1) = 0) (hPl2 : rd st.mem (p + 2) = 0)
    (hPf : rd st.mem (p + a + 1) = a + 2 ^ 31)
    (hB : rd st.mem (p + a + 2) = b + 2 ^ 30)
    (hN : rd st.mem (p + a + b + 3) = c + 2 ^ 31)
    (hNl1 : rd st.mem (p + a + b + 4) = 0) (hNl2 : rd st.mem (p + a + b + 5) = 0)
    (hF : rd st.mem (p + a + b + c + 5) = d + 2 ^ 30) :
    block_size (free st (some (p + a + 3))).mem p = a + (b - 1) + c + 4 ∧
    block_free (free st (some (p + a + 3))).mem p = true ∧
    rd (free st (some (p + a + 3))).mem (p + (a + (b - 1) + c + 4) + 1)
      = rd (free st (some (p + a + 3))).mem p ∧
    (free st (some (p + a + 3))).seg ((a - 2) / 2) = none ∧
    (free st (some (p + a + 3))).seg ((c - 2) / 2) = none ∧
    (free st (some (p + a + 3))).segRoot = some p ∧
    block_next (free st (some (p + a + 3))).mem p = p + a + b + c + 5 ∧
    block_prev_free (free st (some (p + a + 3))).mem (p + a + b + c + 5) = true := by
  have key := free_both_free_state st p a b c d ha2 ha12 hae hb3 hbo hbB hc2 hc12 hce hdB hM
    hRoot hP hPl1 hPl2 hPf hB hN hNl1 hNl2 hF
  rw [key]
  dsimp only
  have rdP : rd (wr (wr (wr (wr (wr (wr (wr (wr st.mem (p + a + b + 3) c)
      p (b - 1 + a + c + 4)) p (b - 1 + a + c + 4 + 2 ^ 31))
      (p + (b - 1 + a + c + 4) + 1) (b - 1 + a + c + 4 + 2 ^ 31))
      (p + 1) 0) (p + 2) 0) (p + 3) 0) (p + 4) 0) p
      = (b - 1 + a + c + 4) + 0 * 2 ^ 30 + 1 * 2 ^ 31 := by
    rw [rd_wr_ne _ _ _ _ (by omega), rd_wr_ne _ _ _ _ (by omega),
      rd_wr_ne _ _ _ _ (by omega), rd_wr_ne _ _ _ _ (by omega),
      rd_wr_ne _ _ _ _ (by omega), rd_wr_eq]
    ring
  have rdF : rd (wr (wr (wr (wr (wr (wr (wr (wr st.mem (p + a + b + 3) c)
      p (b - 1 + a + c + 4)) p (b - 1 + a + c + 4 + 2 ^ 31))
      (p + (b - 1 + a + c + 4) + 1) (b - 1 + a + c + 4 + 2 ^ 31))
      (p + 1) 0) (p + 2) 0) (p + 3) 0) (p + 4) 0) (p + a + b + c + 5)
      = d + 1 * 2 ^ 30 + 0 * 2 ^ 31 := by
    rw [rd_wr_ne _ _ _ _ (by omega), rd_wr_ne _ _ _ _ (by omega),
      rd_wr_ne _ _ _ _ (by omega), rd_wr_ne _ _ _ _ (by omega),
      rd_wr_ne _ _ _ _ (by omega), rd_wr_ne _ _ _ _ (by omega),
      rd_wr_ne _ _ _ _ (by omega), rd_wr_ne _ _ _ _ (by omega), hF]
    ring
  refine ⟨?_, ?_, ?_, ?_, ?_, rfl, ?_, ?_⟩
  · rw [hdr_size _ _ (b - 1 + a + c + 4) 0 1 rdP (by omega) (by norm_num) (by norm_num)]
    omega
  · rw [hdr_free _ _ (b - 1 + a + c + 4) 0 1 rdP (by omega) (by norm_num) (by norm_num)]
    rfl
  · have e : p + (a + (b - 1) + c + 4) + 1 = p + (b - 1 + a + c + 4) + 1 := by omega
    rw [e]
    rw [rd_wr_ne _ _ _ _ (by omega), rd_wr_ne _ _ _ _ (by omega),
      rd_wr_ne _ _ _ _ (by omega), rd_wr_ne _ _ _ _ (by omega), rd_wr_eq]
    rw [rdP]
    ring
  · unfold segSet
    split
    · rfl
    · simp
  · unfold segSet
    simp
  · rw [hdr_next_free _ _ (b - 1 + a + c + 4) 1 rdP (by omega) (by norm_num)]
    omega
  · rw [hdr_prev_free _ _ d 1 0 rdF (by omega) (by norm_num) (by norm_num)]
    rfl

theorem c4_free_coalesces_both_neighbors_witness :
    block_size (free c4wit_state (some (1 + 2 + 3))).mem 1 = 2 + (5 - 1) + 4 + 4 ∧
    block_free (free c4wit_state (some (1 + 2 + 3))).mem 1 = true ∧
    rd (free c4wit_state (some (1 + 2 + 3))).mem (1 + (2 + (5 - 1) + 4 + 4) + 1)
      = rd (free c4wit_state (some (1 + 2 + 3))).mem 1 ∧
    (free c4wit_state (some (1 + 2 + 3))).seg ((2 - 2) / 2) = none ∧
    (free c4wit_state (some (1 + 2 + 3))).seg ((4 - 2) / 2) = none ∧
    (free c4wit_state (some (1 + 2 + 3))).segRoot = some 1 ∧
    block_next (free c4wit_state (some (1 + 2 + 3))).mem 1 = 1 + 2 + 5 + 4 + 5 ∧
    block_prev_free (free c4wit_state (some (1 + 2 + 3))).mem (1 + 2 + 5 + 4 + 5) = true :=
  c4_free_coalesces_both_neighbors c4wit_state 1 2 5 4 3
    (by norm_num) (by norm_num) (by norm_num)
    (by norm_num) (by norm_num) (by norm_num)
    (by norm_num) (by norm_num) (by norm_num)
    (by norm_num) (by norm_num)
    (by decide) (by decide) (by decide) (by decide) (by decide) (by decide)
    (by decide) (by decide) (by decide) (by decide)

end MM

namespace MM

/-- The header rewrite of the shrink path of realloc: both branches of
the prev-free conditional write back the new size with the alloc bit
set and the original prev-alloc bit preserved. -/
theorem realloc_shrink_header (st : State) (Q w nw pp : Nat)
    (hwB : w < 2 ^ 30) (hnwB : nw < 2 ^ 30) (hpp : pp ≤ 1)
    (hQ : rd st.mem Q = w + 2 ^ 30 + pp * 2 ^ 31) :
    (if block_prev_free st.mem Q = true
      then block_mark_allo (set_size st.mem Q nw) Q FREE
      else block_mark_allo (set_size st.mem Q nw) Q ALLOCATED)
    = wr (wr st.mem Q nw) Q (nw + 2 ^ 30 + pp * 2 ^ 31) := by
  have hpf : block_prev_free st.mem Q = (pp == 0) :=
    hdr_prev_free _ _ w 1 pp (by rw [hQ]; ring) hwB (by norm_num) hpp
  have rQ : rd (set_size st.mem Q nw) Q = nw + 0 * 2 ^ 30 + 0 * 2 ^ 31 := by
    unfold set_size
    rw [rd_wr_eq]; ring
  interval_cases pp
  · rw [hpf, if_pos (show ((0 == 0) = true) from rfl)]
    have e : nw + 2 ^ 30 + 0 * 2 ^ 31 = nw + 0x40000000 := by omega
    rw [e, mark_allo_free_hdr _ Q nw 0 0 rQ hnwB (by norm_num) (by norm_num)]
    unfold set_size
    rfl
  · rw [hpf, if_neg (show ¬ ((1 == 0) = true) from by decide)]
    have e : nw + 2 ^ 30 + 1 * 2 ^ 31 = nw + 0xC0000000 := by omega
    rw [e, mark_allo_alloc_hdr _ Q nw 0 0 rQ hnwB (by norm_num) (by norm_num)]
    unfold set_size
    rfl


theorem realloc_shrink_alloc_state (st : State) (Q n w nw pp e : Nat)
    (hn0 : ¬ n = 0)
    (hnw : adjust_words n = nw)
    (hwodd : w % 2 = 1) (hnwodd : nw % 2 = 1)
    (hlt : nw < w) (hwB : w < 2 ^ 29) (hpp : pp ≤ 1)
    (hd : 3 ≤ w - nw)
    (heB : e < 2 ^ 30)
    (hRoot : st.segRoot = none)
    (htail : 12 < w - nw - 2)
    (hQ : rd st.mem Q = w + 2 ^ 30 + pp * 2 ^ 31)
    (hNX : rd st.mem (Q + w + 1) = e + 2 ^ 30 + 2 ^ 31) :
    realloc st (some (Q + 1)) n =
      ({ mem := wr (wr (wr (wr (wr (wr (wr (wr (wr (wr st.mem
            Q nw) Q (nw + 2 ^ 30 + pp * 2 ^ 31))
            (Q + nw + 1) (w - nw - 2))
            (Q + nw + 1) (w - nw - 2 + 2 ^ 31))
            (Q + nw + 1 + (w - nw - 2) + 1) (w - nw - 2 + 2 ^ 31))
            (Q + w + 1) (e + 0x40000000))
            (Q + nw + 1 + 1) 0) (Q + nw + 1 + 2) 0) (Q + nw + 1 + 3) 0) (Q + nw + 1 + 4) 0,
         len := st.len, seg := st.seg, segRoot := some (Q + nw + 1) }, some (Q + 1)) := by
  have hQd : rd st.mem Q = w + 1 * 2 ^ 30 + pp * 2 ^ 31 := by rw [hQ]; ring
  have hwsz : block_size st.mem Q = w := hdr_size _ _ w 1 pp hQd (by omega) (by norm_num) hpp
  unfold realloc
  dsimp only
  rw [if_neg hn0, Nat.add_sub_cancel, hwsz, hnw]
  rw [if_neg (by omega : ¬ (nw = w ∨ nw < w ∧ w - nw < 4))]
  rw [if_pos (by omega : nw < w ∧ 4 ≤ w - nw)]
  rw [realloc_shrink_header st Q w nw pp (by omega) (by omega) hpp hQ]
  have r1Q : rd (wr (wr st.mem Q nw) Q (nw + 2 ^ 30 + pp * 2 ^ 31)) Q
      = nw + 1 * 2 ^ 30 + pp * 2 ^ 31 := by rw [rd_wr_eq]; ring
  rw [hdr_next_alloc _ Q nw pp r1Q (by omega) hpp]
  unfold set_size
  have r2T : rd (wr (wr (wr st.mem Q nw) Q (nw + 2 ^ 30 + pp * 2 ^ 31))
      (Q + nw + 1) (w - nw - 2)) (Q + nw + 1)
      = (w - nw - 2) + 0 * 2 ^ 30 + 0 * 2 ^ 31 := by rw [rd_wr_eq]; ring
  rw [mark_free_alloc_hdr _ (Q + nw + 1) (w - nw - 2) 0 0 r2T (by omega) (by norm_num) (by norm_num)]
  have r3T : rd (wr (wr (wr (wr (wr st.mem Q nw) Q (nw + 2 ^ 30 + pp * 2 ^ 31))
      (Q + nw + 1) (w - nw - 2)) (Q + nw + 1) (w - nw - 2 + 2 ^ 31))
      (Q + nw + 1 + (w - nw - 2) + 1) (w - nw - 2 + 2 ^ 31)) (Q + nw + 1)
      = (w - nw - 2) + 0 * 2 ^ 30 + 1 * 2 ^ 31 := by
    rw [rd_wr_ne _ _ _ _ (by omega), rd_wr_eq]; ring
  rw [hdr_next_free _ (Q + nw + 1) (w - nw - 2) 1 r3T (by omega) (by norm_num)]
  rw [show Q + nw + 1 + (w - nw - 2) + 2 = Q + w + 1 from by omega]
  have rNX3 : rd (wr (wr (wr (wr (wr st.mem Q nw) Q (nw + 2 ^ 30 + pp * 2 ^ 31))
      (Q + nw + 1) (w - nw - 2)) (Q + nw + 1) (w - nw - 2 + 2 ^ 31))
      (Q + nw + 1 + (w - nw - 2) + 1) (w - nw - 2 + 2 ^ 31)) (Q + w + 1)
      = e + 1 * 2 ^ 30 + 1 * 2 ^ 31 := by
    rw [rd_wr_ne _ _ _ _ (by omega), rd_wr_ne _ _ _ _ (by omega),
      rd_wr_ne _ _ _ _ (by omega), rd_wr_ne _ _ _ _ (by omega),
      rd_wr_ne _ _ _ _ (by omega), hNX]
    ring
  rw [hdr_free _ _ e 1 1 rNX3 heB (by norm_num) (by norm_num)]
  rw [if_neg (by decide : ¬ (((1:Nat) == 0) = true))]
  rw [mark_allo_free_hdr _ (Q + w + 1) e 1 1 rNX3 heB (by norm_num) (by norm_num)]
  rw [block_insert_tree_base _ (Q + nw + 1) (w - nw - 2)
      (by dsimp only
          rw [rd_wr_ne _ _ _ _ (by omega), rd_wr_ne _ _ _ _ (by omega), rd_wr_eq])
      (by omega) htail (by dsimp only; exact hRoot)]

theorem realloc_shrink_free_state (st : State) (Q n w nw pp g : Nat)
    (hn0 : ¬ n = 0)
    (hnw : adjust_words n = nw)
    (hwodd : w % 2 = 1) (hnwodd : nw % 2 = 1)
    (hlt : nw < w) (hwB : w < 2 ^ 29) (hpp : pp ≤ 1)
    (hd : 3 ≤ w - nw)
    (hg2 : 2 ≤ g) (hg12 : g ≤ 12) (hge : g % 2 = 0)
    (hRoot : st.segRoot = none)
    (htail2 : 12 < w - nw - 2 + g + 2)
    (hQ : rd st.mem Q = w + 2 ^ 30 + pp * 2 ^ 31)
    (hNX : rd st.mem (Q + w + 1) = g + 2 ^ 31)
    (hNXl1 : rd st.mem (Q + w + 2) = 0) (hNXl2 : rd st.mem (Q + w + 3) = 0) :
    realloc st (some (Q + 1)) n =
      ({ mem := wr (wr (wr (wr (wr (wr (wr (wr (wr (wr (wr (wr st.mem
            Q nw) Q (nw + 2 ^ 30 + pp * 2 ^ 31))
            (Q + nw + 1) (w - nw - 2))
            (Q + nw + 1) (w - nw - 2 + 2 ^ 31))
            (Q + nw + 1 + (w - nw - 2) + 1) (w - nw - 2 + 2 ^ 31))
            (Q + nw + 1) (w - nw - 2 + g + 2))
            (Q + nw + 1) (w - nw - 2 + g + 2 + 2 ^ 31))
            (Q + nw + 1 + (w - nw - 2 + g + 2) + 1) (w - nw - 2 + g + 2 + 2 ^ 31))
            (Q + nw + 1 + 1) 0) (Q + nw + 1 + 2) 0) (Q + nw + 1 + 3) 0) (Q + nw + 1 + 4) 0,
         len := st.len,
         seg := segSet st.seg ((g - 2) / 2) none,
         segRoot := some (Q + nw + 1) }, some (Q + 1)) := by
  have hQd : rd st.mem Q = w + 1 * 2 ^ 30 + pp * 2 ^ 31 := by rw [hQ]; ring
  have hwsz : block_size st.mem Q = w := hdr_size _ _ w 1 pp hQd (by omega) (by norm_num) hpp
  unfold realloc
  dsimp only
  rw [if_neg hn0, Nat.add_sub_cancel, hwsz, hnw]
  rw [if_neg (by omega : ¬ (nw = w ∨ nw < w ∧ w - nw < 4))]
  rw [if_pos (by omega : nw < w ∧ 4 ≤ w - nw)]
  rw [realloc_shrink_header st Q w nw pp (by omega) (by omega) hpp hQ]
  have r1Q : rd (wr (wr st.mem Q nw) Q (nw + 2 ^ 30 + pp * 2 ^ 31)) Q
      = nw + 1 * 2 ^ 30 + pp * 2 ^ 31 := by rw [rd_wr_eq]; ring
  rw [hdr_next_alloc _ Q nw pp r1Q (by omega) hpp]
  unfold set_size
  have r2T : rd (wr (wr (wr st.mem Q nw) Q (nw + 2 ^ 30 + pp * 2 ^ 31))
      (Q + nw + 1) (w - nw - 2)) (Q + nw + 1)
      = (w - nw - 2) + 0 * 2 ^ 30 + 0 * 2 ^ 31 := by rw [rd_wr_eq]; ring
  rw [mark_free_alloc_hdr _ (Q + nw + 1) (w - nw - 2) 0 0 r2T (by omega) (by norm_num) (by norm_num)]
  have r3T : rd (wr (wr (wr (wr (wr st.mem Q nw) Q (nw + 2 ^ 30 + pp * 2 ^ 31))
      (Q + nw + 1) (w - nw - 2)) (Q + nw + 1) (w - nw - 2 + 2 ^ 31))
      (Q + nw + 1 + (w - nw - 2) + 1) (w - nw - 2 + 2 ^ 31)) (Q + nw + 1)
      = (w - nw - 2) + 0 * 2 ^ 30 + 1 * 2 ^ 31 := by
    rw [rd_wr_ne _ _ _ _ (by omega), rd_wr_eq]; ring
  rw [hdr_next_free _ (Q + nw + 1) (w - nw - 2) 1 r3T (by omega) (by norm_num)]
  rw [show Q + nw + 1 + (w - nw - 2) + 2 = Q + w + 1 from by omega]
  have rNX3 : rd (wr (wr (wr (wr (wr st.mem Q nw) Q (nw + 2 ^ 30 + pp * 2 ^ 31))
      (Q + nw + 1) (w - nw - 2)) (Q + nw + 1) (w - nw - 2 + 2 ^ 31))
      (Q + nw + 1 + (w - nw - 2) + 1) (w - nw - 2 + 2 ^ 31)) (Q + w + 1)
      = g + 0 * 2 ^ 30 + 1 * 2 ^ 31 := by
    rw [rd_wr_ne _ _ _ _ (by omega), rd_wr_ne _ _ _ _ (by omega),
      rd_wr_ne _ _ _ _ (by omega), rd_wr_ne _ _ _ _ (by omega),
      rd_wr_ne _ _ _ _ (by omega), hNX]
    ring
  rw [hdr_free _ _ g 0 1 rNX3 (by omega) (by norm_num) (by norm_num)]
  rw [if_pos (show (((0:Nat) == 0) = true) from rfl)]
  -- the block_delete of the free follower (a small-class singleton)
  have rNXl1 : rd (wr (wr (wr (wr (wr st.mem Q nw) Q (nw + 2 ^ 30 + pp * 2 ^ 31))
      (Q + nw + 1) (w - nw - 2)) (Q + nw + 1) (w - nw - 2 + 2 ^ 31))
      (Q + nw + 1 + (w - nw - 2) + 1) (w - nw - 2 + 2 ^ 31)) (Q + w + 1 + 1) = 0 := by
    rw [rd_wr_ne _ _ _ _ (by omega), rd_wr_ne _ _ _ _ (by omega),
      rd_wr_ne _ _ _ _ (by omega), rd_wr_ne _ _ _ _ (by omega),
      rd_wr_ne _ _ _ _ (by omega)]
    exact hNXl1
  have rNXl2 : rd (wr (wr (wr (wr (wr st.mem Q nw) Q (nw + 2 ^ 30 + pp * 2 ^ 31))
      (Q + nw + 1) (w - nw - 2)) (Q + nw + 1) (w - nw - 2 + 2 ^ 31))
      (Q + nw + 1 + (w - nw - 2) + 1) (w - nw - 2 + 2 ^ 31)) (Q + w + 1 + 2) = 0 := by
    rw [rd_wr_ne _ _ _ _ (by omega), rd_wr_ne _ _ _ _ (by omega),
      rd_wr_ne _ _ _ _ (by omega), rd_wr_ne _ _ _ _ (by omega),
      rd_wr_ne _ _ _ _ (by omega)]
    exact hNXl2
  have hdel : block_delete
      { mem := wr (wr (wr (wr (wr st.mem Q nw) Q (nw + 2 ^ 30 + pp * 2 ^ 31))
          (Q + nw + 1) (w - nw - 2)) (Q + nw + 1) (w - nw - 2 + 2 ^ 31))
          (Q + nw + 1 + (w - nw - 2) + 1) (w - nw - 2 + 2 ^ 31),
        len := st.len, seg := st.seg, segRoot := st.segRoot } (Q + w + 1) =
      { mem := wr (wr (wr (wr (wr st.mem Q nw) Q (nw + 2 ^ 30 + pp * 2 ^ 31))
          (Q + nw + 1) (w - nw - 2)) (Q + nw + 1) (w - nw - 2 + 2 ^ 31))
          (Q + nw + 1 + (w - nw - 2) + 1) (w - nw - 2 + 2 ^ 31),
        len := st.len, seg := segSet st.seg ((g - 2) / 2) none, segRoot := st.segRoot } := by
    unfold block_delete
    dsimp only
    rw [hdr_size _ _ g 0 1 rNX3 (by omega) (by norm_num) (by norm_num),
      if_pos (by unfold SEG_LIST_SIZE; omega : g ≤ SEG_LIST_SIZE * 2)]
    unfold small_block_delete
    dsimp only
    rw [show block_pred (wr (wr (wr (wr (wr st.mem Q nw) Q (nw + 2 ^ 30 + pp * 2 ^ 31))
        (Q + nw + 1) (w - nw - 2)) (Q + nw + 1) (w - nw - 2 + 2 ^ 31))
        (Q + nw + 1 + (w - nw - 2) + 1) (w - nw - 2 + 2 ^ 31)) (Q + w + 1) = none from by
      unfold block_pred
      dsimp only
      rw [rNXl1]
      rfl]
    rw [show block_succ (wr (wr (wr (wr (wr st.mem Q nw) Q (nw + 2 ^ 30 + pp * 2 ^ 31))
        (Q + nw + 1) (w - nw - 2)) (Q + nw + 1) (w - nw - 2 + 2 ^ 31))
        (Q + nw + 1 + (w - nw - 2) + 1) (w - nw - 2 + 2 ^ 31)) (Q + w + 1) = none from by
      unfold block_succ
      dsimp only
      rw [rNXl2]
      rfl]
    rw [hdr_size _ _ g 0 1 rNX3 (by omega) (by norm_num) (by norm_num)]
    rfl
  rw [hdel]
  dsimp only
  rw [hdr_size _ _ (w - nw - 2) 0 1 r3T (by omega) (by norm_num) (by norm_num),
    hdr_size _ _ g 0 1 rNX3 (by omega) (by norm_num) (by norm_num)]
  have r4T : rd (wr (wr (wr (wr (wr (wr st.mem Q nw) Q (nw + 2 ^ 30 + pp * 2 ^ 31))
      (Q + nw + 1) (w - nw - 2)) (Q + nw + 1) (w - nw - 2 + 2 ^ 31))
      (Q + nw + 1 + (w - nw - 2) + 1) (w - nw - 2 + 2 ^ 31))
      (Q + nw + 1) (w - nw - 2 + g + 2)) (Q + nw + 1)
      = (w - nw - 2 + g + 2) + 0 * 2 ^ 30 + 0 * 2 ^ 31 := by
    rw [rd_wr_eq]; ring
  rw [mark_free_alloc_hdr _ (Q + nw + 1) (w - nw - 2 + g + 2) 0 0 r4T (by omega) (by norm_num) (by norm_num)]
  rw [block_insert_tree_base _ (Q + nw + 1) (w - nw - 2 + g + 2)
      (by dsimp only
          rw [rd_wr_ne _ _ _ _ (by omega), rd_wr_eq])
      (by omega) htail2 (by dsimp only; exact hRoot)]



/-- C5: resizing an allocated block of words (odd) to a smaller
nwords (odd): when the shrink amount words - nwords is under 3 words
the call returns the payload with the state unchanged (the source
checks < 4, which coincides for odd sizes); when it is at least 3 the
block is split in place - the head keeps nwords, the tail of
words - nwords - 2 words is written free with its footer - and then
either the following allocated block's prev_alloc bit is set to 0 and
the tail is inserted into the index, or, when the following block is
free, the tail absorbs it and the merged tail is inserted. -/
theorem c5_resize_shrink (st : State) (Q n w nw pp : Nat)
    (hn0 : ¬ n = 0)
    (hnw : adjust_words n = nw)
    (hwodd : w % 2 = 1) (hnwodd : nw % 2 = 1)
    (hlt : nw < w) (hwB : w < 2 ^ 29) (hpp : pp ≤ 1)
    (hRoot : st.segRoot = none)
    (hQ : rd st.mem Q = w + 2 ^ 30 + pp * 2 ^ 31) :
    (w - nw < 3 → realloc st (some (Q + 1)) n = (st, some (Q + 1))) ∧
    (∀ e, 3 ≤ w - nw → 12 < w - nw - 2 → e < 2 ^ 30 →
      rd st.mem (Q + w + 1) = e + 2 ^ 30 + 2 ^ 31 →
      ((realloc st (some (Q + 1)) n).2 = some (Q + 1) ∧
       block_size (realloc st (some (Q + 1)) n).1.mem Q = nw ∧
       block_free (realloc st (some (Q + 1)) n).1.mem Q = false ∧
       block_size (realloc st (some (Q + 1)) n).1.mem (Q + nw + 1) = w - nw - 2 ∧
       block_free (realloc st (some (Q + 1)) n).1.mem (Q + nw + 1) = true ∧
       rd (realloc st (some (Q + 1)) n).1.mem (Q + nw + 1 + (w - nw - 2) + 1)
         = rd (realloc st (some (Q + 1)) n).1.mem (Q + nw + 1) ∧
       block_free (realloc st (some (Q + 1)) n).1.mem (Q + w + 1) = false ∧
       block_prev_free (realloc st (some (Q + 1)) n).1.mem (Q + w + 1) = true ∧
       (realloc st (some (Q + 1)) n).1.segRoot = some (Q + nw + 1))) ∧
    (∀ g, 3 ≤ w - nw → 2 ≤ g → g ≤ 12 → g % 2 = 0 → 12 < w - nw - 2 + g + 2 →
      rd st.mem (Q + w + 1) = g + 2 ^ 31 →
      rd st.mem (Q + w + 2) = 0 → rd st.mem (Q + w + 3) = 0 →
      st.seg ((g - 2) / 2) = some (Q + w + 1) →
      ((realloc st (some (Q + 1)) n).2 = some (Q + 1) ∧
       block_size (realloc st (some (Q + 1)) n).1.mem Q = nw ∧
       block_free (realloc st (some (Q + 1)) n).1.mem Q = false ∧
       block_size (realloc st (some (Q + 1)) n).1.mem (Q + nw + 1) = w - nw - 2 + g + 2 ∧
       block_free (realloc st (some (Q + 1)) n).1.mem (Q + nw + 1) = true ∧
       rd (realloc st (some (Q + 1)) n).1.mem (Q + nw + 1 + (w - nw - 2 + g + 2) + 1)
         = rd (realloc st (some (Q + 1)) n).1.mem (Q + nw + 1) ∧
       (realloc st (some (Q + 1)) n).1.seg ((g - 2) / 2) = none ∧
       (realloc st (some (Q + 1)) n).1.segRoot = some (Q + nw + 1))) := by
  refine ⟨?_, ?_, ?_⟩
  · intro hd3
    have hQd : rd st.mem Q = w + 1 * 2 ^ 30 + pp * 2 ^ 31 := by rw [hQ]; ring
    have hwsz : block_size st.mem Q = w :=
      hdr_size _ _ w 1 pp hQd (by omega) (by norm_num) hpp
    unfold realloc
    dsimp only
    rw [if_neg hn0, Nat.add_sub_cancel, hwsz, hnw,
      if_pos (Or.inr ⟨hlt, by omega⟩ : nw = w ∨ nw < w ∧ w - nw < 4)]
  · intro e hd htail heB hNX
    rw [realloc_shrink_alloc_state st Q n w nw pp e hn0 hnw hwodd hnwodd hlt hwB hpp hd heB
      hRoot htail hQ hNX]
    dsimp only
    have rQ : rd (wr (wr (wr (wr (wr (wr (wr (wr (wr (wr st.mem
            Q nw) Q (nw + 2 ^ 30 + pp * 2 ^ 31))
            (Q + nw + 1) (w - nw - 2))
            (Q + nw + 1) (w - nw - 2 + 2 ^ 31))
            (Q + nw + 1 + (w - nw - 2) + 1) (w - nw - 2 + 2 ^ 31))
            (Q + w + 1) (e + 0x40000000))
            (Q + nw + 1 + 1) 0) (Q + nw + 1 + 2) 0) (Q + nw + 1 + 3) 0) (Q + nw + 1 + 4) 0) Q = nw + 1 * 2 ^ 30 + pp * 2 ^ 31 := by
      rw [rd_wr_ne _ _ _ _ (by omega), rd_wr_ne _ _ _ _ (by omega), rd_wr_ne _ _ _ _ (by omega), rd_wr_ne _ _ _ _ (by omega), rd_wr_ne _ _ _ _ (by omega), rd_wr_ne _ _ _ _ (by omega), rd_wr_ne _ _ _ _ (by omega), rd_wr_ne _ _ _ _ (by omega), rd_wr_eq]
      ring
    have rT : rd (wr (wr (wr (wr (wr (wr (wr (wr (wr (wr st.mem
            Q nw) Q (nw + 2 ^ 30 + pp * 2 ^ 31))
            (Q + nw + 1) (w - nw - 2))
            (Q + nw + 1) (w - nw - 2 + 2 ^ 31))
            (Q + nw + 1 + (w - nw - 2) + 1) (w - nw - 2 + 2 ^ 31))
            (Q + w + 1) (e + 0x40000000))
            (Q + nw + 1 + 1) 0) (Q + nw + 1 + 2) 0) (Q + nw + 1 + 3) 0) (Q + nw + 1 + 4) 0) (Q + nw + 1) = (w - nw - 2) + 0 * 2 ^ 30 + 1 * 2 ^ 31 := by
      rw [rd_wr_ne _ _ _ _ (by omega), rd_wr_ne _ _ _ _ (by omega), rd_wr_ne _ _ _ _ (by omega), rd_wr_ne _ _ _ _ (by omega), rd_wr_ne _ _ _ _ (by omega), rd_wr_ne _ _ _ _ (by omega), rd_wr_eq]
      ring
    have rFt : rd (wr (wr (wr (wr (wr (wr (wr (wr (wr (wr st.mem
            Q nw) Q (nw + 2 ^ 30 + pp * 2 ^ 31))
            (Q + nw + 1) (w - nw - 2))
            (Q + nw + 1) (w - nw - 2 + 2 ^ 31))
            (Q + nw + 1 + (w - nw - 2) + 1) (w - nw - 2 + 2 ^ 31))
            (Q + w + 1) (e + 0x40000000))
            (Q + nw + 1 + 1) 0) (Q + nw + 1 + 2) 0) (Q + nw + 1 + 3) 0) (Q + nw + 1 + 4) 0) (Q + nw + 1 + (w - nw - 2) + 1) = w - nw - 2 + 2 ^ 31 := by
      rw [rd_wr_ne _ _ _ _ (by omega), rd_wr_ne _ _ _ _ (by omega), rd_wr_ne _ _ _ _ (by omega), rd_wr_ne _ _ _ _ (by omega), rd_wr_ne _ _ _ _ (by omega), rd_wr_eq]
    have rNX : rd (wr (wr (wr (wr (wr (wr (wr (wr (wr (wr st.mem
            Q nw) Q (nw + 2 ^ 30 + pp * 2 ^ 31))
            (Q + nw + 1) (w - nw - 2))
            (Q + nw + 1) (w - nw - 2 + 2 ^ 31))
            (Q + nw + 1 + (w - nw - 2) + 1) (w - nw - 2 + 2 ^ 31))
            (Q + w + 1) (e + 0x40000000))
            (Q + nw + 1 + 1) 0) (Q + nw + 1 + 2) 0) (Q + nw + 1 + 3) 0) (Q + nw + 1 + 4) 0) (Q + w + 1) = e + 1 * 2 ^ 30 + 0 * 2 ^ 31 := by
      rw [rd_wr_ne _ _ _ _ (by omega), rd_wr_ne _ _ _ _ (by omega), rd_wr_ne _ _ _ _ (by omega), rd_wr_ne _ _ _ _ (by omega), rd_wr_eq]
      ring
    refine ⟨rfl, ?_, ?_, ?_, ?_, ?_, ?_, ?_, rfl⟩
    · rw [hdr_size _ _ nw 1 pp rQ (by omega) (by norm_num) hpp]
    · rw [hdr_free _ _ nw 1 pp rQ (by omega) (by norm_num) hpp]
      rfl
    · rw [hdr_size _ _ (w - nw - 2) 0 1 rT (by omega) (by norm_num) (by norm_num)]
    · rw [hdr_free _ _ (w - nw - 2) 0 1 rT (by omega) (by norm_num) (by norm_num)]
      rfl
    · rw [rFt, rT]
      ring
    · rw [hdr_free _ _ e 1 0 rNX (by omega) (by norm_num) (by norm_num)]
      rfl
    · rw [hdr_prev_free _ _ e 1 0 rNX (by omega) (by norm_num) (by norm_num)]
      rfl
  · intro g hd hg2 hg12 hge htail2 hNX hNXl1 hNXl2 hSeg
    rw [realloc_shrink_free_state st Q n w nw pp g hn0 hnw hwodd hnwodd hlt hwB hpp hd hg2 hg12
      hge hRoot htail2 hQ hNX hNXl1 hNXl2]
    dsimp only
    have rQ : rd (wr (wr (wr (wr (wr (wr (wr (wr (wr (wr (wr (wr st.mem
            Q nw) Q (nw + 2 ^ 30 + pp * 2 ^ 31))
            (Q + nw + 1) (w - nw - 2))
            (Q + nw + 1) (w - nw - 2 + 2 ^ 31))
            (Q + nw + 1 + (w - nw - 2) + 1) (w - nw - 2 + 2 ^ 31))
            (Q + nw + 1) (w - nw - 2 + g + 2))
            (Q + nw + 1) (w - nw - 2 + g + 2 + 2 ^ 31))
            (Q + nw + 1 + (w - nw - 2 + g + 2) + 1) (w - nw - 2 + g + 2 + 2 ^ 31))
            (Q + nw + 1 + 1) 0) (Q + nw + 1 + 2) 0) (Q + nw + 1 + 3) 0) (Q + nw + 1 + 4) 0) Q = nw + 1 * 2 ^ 30 + pp * 2 ^ 31 := by
      rw [rd_wr_ne _ _ _ _ (by omega), rd_wr_ne _ _ _ _ (by omega), rd_wr_ne _ _ _ _ (by omega), rd_wr_ne _ _ _ _ (by omega), rd_wr_ne _ _ _ _ (by omega), rd_wr_ne _ _ _ _ (by omega), rd_wr_ne _ _ _ _ (by omega), rd_wr_ne _ _ _ _ (by omega), rd_wr_ne _ _ _ _ (by omega), rd_wr_ne _ _ _ _ (by omega), rd_wr_eq]
      ring
    have rT : rd (wr (wr (wr (wr (wr (wr (wr (wr (wr (wr (wr (wr st.mem
            Q nw) Q (nw + 2 ^ 30 + pp * 2 ^ 31))
            (Q + nw + 1) (w - nw - 2))
            (Q + nw + 1) (w - nw - 2 + 2 ^ 31))
            (Q + nw + 1 + (w - nw - 2) + 1) (w - nw - 2 + 2 ^ 31))
            (Q + nw + 1) (w - nw - 2 + g + 2))
            (Q + nw + 1) (w - nw - 2 + g + 2 + 2 ^ 31))
            (Q + nw + 1 + (w - nw - 2 + g + 2) + 1) (w - nw - 2 + g + 2 + 2 ^ 31))
            (Q + nw + 1 + 1) 0) (Q + nw + 1 + 2) 0) (Q + nw + 1 + 3) 0) (Q + nw + 1 + 4) 0) (Q + nw + 1)
        = (w - nw - 2 + g + 2) + 0 * 2 ^ 30 + 1 * 2 ^ 31 := by
      rw [rd_wr_ne _ _ _ _ (by omega), rd_wr_ne _ _ _ _ (by omega), rd_wr_ne _ _ _ _ (by omega), rd_wr_ne _ _ _ _ (by omega), rd_wr_ne _ _ _ _ (by omega), rd_wr_eq]
      ring
    have rFt : rd (wr (wr (wr (wr (wr (wr (wr (wr (wr (wr (wr (wr st.mem
            Q nw) Q (nw + 2 ^ 30 + pp * 2 ^ 31))
            (Q + nw + 1) (w - nw - 2))
            (Q + nw + 1) (w - nw - 2 + 2 ^ 31))
            (Q + nw + 1 + (w - nw - 2) + 1) (w - nw - 2 + 2 ^ 31))
            (Q + nw + 1) (w - nw - 2 + g + 2))
            (Q + nw + 1) (w - nw - 2 + g + 2 + 2 ^ 31))
            (Q + nw + 1 + (w - nw - 2 + g + 2) + 1) (w - nw - 2 + g + 2 + 2 ^ 31))
            (Q + nw + 1 + 1) 0) (Q + nw + 1 + 2) 0) (Q + nw + 1 + 3) 0) (Q + nw + 1 + 4) 0) (Q + nw + 1 + (w - nw - 2 + g + 2) + 1)
        = w - nw - 2 + g + 2 + 2 ^ 31 := by
      rw [rd_wr_ne _ _ _ _ (by omega), rd_wr_ne _ _ _ _ (by omega), rd_wr_ne _ _ _ _ (by omega), rd_wr_ne _ _ _ _ (by omega), rd_wr_eq]
    refine ⟨rfl, ?_, ?_, ?_, ?_, ?_, ?_, rfl⟩
    · rw [hdr_size _ _ nw 1 pp rQ (by omega) (by norm_num) hpp]
    · rw [hdr_free _ _ nw 1 pp rQ (by omega) (by norm_num) hpp]
      rfl
    · rw [hdr_size _ _ (w - nw - 2 + g + 2) 0 1 rT (by omega) (by norm_num) (by norm_num)]
    · rw [hdr_free _ _ (w - nw - 2 + g + 2) 0 1 rT (by omega) (by norm_num) (by norm_num)]
      rfl
    · rw [rFt, rT]
      ring
    · unfold segSet
      simp

/-- C5 (witness): the shrink theorem applied to the concrete heap
c5wit_state with request 16 (nwords 5) against the 25-word block; the
last conjunct exhibits the allocated follower, so the first inner
implication of the split case is live at e = 3. -/
theorem c5_resize_shrink_witness :
    ((25 - 5 < 3 → realloc c5wit_state (some (1 + 1)) 16 = (c5wit_state, some (1 + 1))) ∧
    (∀ e, 3 ≤ 25 - 5 → 12 < 25 - 5 - 2 → e < 2 ^ 30 →
      rd c5wit_state.mem (1 + 25 + 1) = e + 2 ^ 30 + 2 ^ 31 →
      ((realloc c5wit_state (some (1 + 1)) 16).2 = some (1 + 1) ∧
       block_size (realloc c5wit_state (some (1 + 1)) 16).1.mem 1 = 5 ∧
       block_free (realloc c5wit_state (some (1 + 1)) 16).1.mem 1 = false ∧
       block_size (realloc c5wit_state (some (1 + 1)) 16).1.mem (1 + 5 + 1) = 25 - 5 - 2 ∧
       block_free (realloc c5wit_state (some (1 + 1)) 16).1.mem (1 + 5 + 1) = true ∧
       rd (realloc c5wit_state (some (1 + 1)) 16).1.mem (1 + 5 + 1 + (25 - 5 - 2) + 1)
         = rd (realloc c5wit_state (some (1 + 1)) 16).1.mem (1 + 5 + 1) ∧
       block_free (realloc c5wit_state (some (1 + 1)) 16).1.mem (1 + 25 + 1) = false ∧
       block_prev_free (realloc c5wit_state (some (1 + 1)) 16).1.mem (1 + 25 + 1) = true ∧
       (realloc c5wit_state (some (1 + 1)) 16).1.segRoot = some (1 + 5 + 1))) ∧
    (∀ g, 3 ≤ 25 - 5 → 2 ≤ g → g ≤ 12 → g % 2 = 0 → 12 < 25 - 5 - 2 + g + 2 →
      rd c5wit_state.mem (1 + 25 + 1) = g + 2 ^ 31 →
      rd c5wit_state.mem (1 + 25 + 2) = 0 → rd c5wit_state.mem (1 + 25 + 3) = 0 →
      c5wit_state.seg ((g - 2) / 2) = some (1 + 25 + 1) →
      ((realloc c5wit_state (some (1 + 1)) 16).2 = some (1 + 1) ∧
       block_size (realloc c5wit_state (some (1 + 1)) 16).1.mem 1 = 5 ∧
       block_free (realloc c5wit_state (some (1 + 1)) 16).1.mem 1 = false ∧
       block_size (realloc c5wit_state (some (1 + 1)) 16).1.mem (1 + 5 + 1) = 25 - 5 - 2 + g + 2 ∧
       block_free (realloc c5wit_state (some (1 + 1)) 16).1.mem (1 + 5 + 1) = true ∧
       rd (realloc c5wit_state (some (1 + 1)) 16).1.mem (1 + 5 + 1 + (25 - 5 - 2 + g + 2) + 1)
         = rd (realloc c5wit_state (some (1 + 1)) 16).1.mem (1 + 5 + 1) ∧
       (realloc c5wit_state (some (1 + 1)) 16).1.seg ((g - 2) / 2) = none ∧
       (realloc c5wit_state (some (1 + 1)) 16).1.segRoot = some (1 + 5 + 1)))) ∧
    rd c5wit_state.mem (1 + 25 + 1) = 3 + 2 ^ 30 + 2 ^ 31 :=
  ⟨c5_resize_shrink c5wit_state 1 16 25 5 1 (by norm_num) (by decide)
    (by norm_num) (by norm_num) (by norm_num) (by norm_num) (by norm_num)
    (by decide) (by decide), by decide⟩

end MM

namespace MM

/-- A canonical node's offset occurs among the tree's offsets. -/
theorem BT.nodes_mem_offs (t : BT) : ∀ b sz, (b, sz) ∈ t.nodes → b ∈ t.offs := by
  induction t with
  | leaf => intro b sz h; cases h
  | node l b0 sz0 ring r ihl ihr =>
    intro b sz h
    unfold BT.nodes at h
    unfold BT.offs
    rcases List.mem_append.1 h with h | h
    · exact List.mem_append.2 (Or.inl (ihl b sz h))
    · rcases List.mem_cons.1 h with h | h
      · cases h
        exact List.mem_append.2 (Or.inr (List.mem_cons_self _ _))
      · exact List.mem_append.2 (Or.inr (List.mem_cons.2 (Or.inr
          (List.mem_append.2 (Or.inr (ihr b sz h))))))

/-- Every stored offset's block has the size of some key of the tree. -/
theorem TreeRep_offs_size (m : Mem) (root : Option Nat) (t : BT)
    (h : TreeRep m root t) : ∀ c ∈ t.offs, ∃ k, k ∈ t.keys ∧ block_size m c = k := by
  induction h with
  | leaf => intro c hc; cases hc
  | node b sz ring l r hsz hpred hring hrsz hl hr ihl ihr =>
    intro c hc
    unfold BT.offs at hc
    unfold BT.keys
    rcases List.mem_append.1 hc with hc | hc
    · obtain ⟨k, hk, he⟩ := ihl c hc
      exact ⟨k, List.mem_append.2 (Or.inl hk), he⟩
    · rcases List.mem_cons.1 hc with hc | hc
      · subst hc
        exact ⟨sz, List.mem_append.2 (Or.inr (List.mem_cons_self _ _)), hsz⟩
      · rcases List.mem_append.1 hc with hc | hc
        · exact ⟨sz, List.mem_append.2 (Or.inr (List.mem_cons_self _ _)), hrsz c hc⟩
        · obtain ⟨k, hk, he⟩ := ihr c hc
          exact ⟨k, List.mem_append.2 (Or.inr (List.mem_cons.2 (Or.inr hk))), he⟩

/-- The first block of a chain whose members all have size at least
the request is returned by the chain scan immediately. -/
theorem chain_scan_head (m : Mem) (w s fuel : Nat) (L : List Nat) (cur : Option Nat)
    (hC : Chain m cur L) (hf : 0 < fuel)
    (hsz : ∀ x ∈ L, block_size m x = s) (hws : w ≤ s) :
    chain_scan fuel m w cur = L.head? := by
  obtain ⟨f, rfl⟩ : ∃ f, fuel = f + 1 := ⟨fuel - 1, by omega⟩
  cases hC with
  | nil => rfl
  | cons b rest h =>
    show (if w ≤ block_size m b then some b else chain_scan f m w (block_succ m b)) = _
    rw [if_pos (by rw [hsz b (List.mem_cons_self _ _)]; exact hws)]
    rfl

/-- minimum with the ADDRESS order stops at once on a block with a
NULL pred. -/
theorem minimum_head (fuel : Nat) (m : Mem) (b : Nat) (hf : 0 < fuel)
    (hp : block_pred m b = none) :
    minimum fuel m b ADDRESS = b := by
  obtain ⟨f, rfl⟩ : ∃ f, fuel = f + 1 := ⟨fuel - 1, by omega⟩
  unfold minimum
  rw [if_pos (show ((ADDRESS == ADDRESS) = true) from rfl), hp]

/-- Inverting a chain at a some head. -/
theorem Chain_some (m : Mem) (b : Nat) (L : List Nat) (h : Chain m (some b) L) :
    ∃ rest, L = b :: rest ∧ Chain m (block_succ m b) rest := by
  cases h with
  | cons _ rest hr => exact ⟨rest, rfl, hr⟩

/-- Inverting a chain at NULL. -/
theorem Chain_none (m : Mem) (L : List Nat) (h : Chain m none L) : L = [] := by
  cases h
  rfl

/-- A canonical node's key occurs among the tree's keys. -/
theorem BT.nodes_mem_keys (t : BT) : ∀ b sz, (b, sz) ∈ t.nodes → sz ∈ t.keys := by
  induction t with
  | leaf => intro b sz h; cases h
  | node l b0 sz0 ring r ihl ihr =>
    intro b sz h
    unfold BT.nodes at h
    unfold BT.keys
    rcases List.mem_append.1 h with h | h
    · exact List.mem_append.2 (Or.inl (ihl b sz h))
    · rcases List.mem_cons.1 h with h | h
      · cases h
        exact List.mem_append.2 (Or.inr (List.mem_cons_self _ _))
      · exact List.mem_append.2 (Or.inr (List.mem_cons.2 (Or.inr (ihr b sz h))))

/-- small_loop returns the head of the first nonempty class at or
above i, all classes below it being empty; it returns NULL only when
every class at or above i is empty. -/
theorem small_loop_spec (st : State) (w : Nat) (SL : Nat → List Nat)
    (hrep : ∀ j, j < 6 → Chain st.mem (st.seg j) (SL j))
    (hsz : ∀ j, j < 6 → ∀ x ∈ SL j, block_size st.mem x = 2 * (j + 1)) :
    ∀ fuel i, 6 ≤ fuel + i →
      (∀ j, i ≤ j → j < 6 → w ≤ 2 * (j + 1)) →
      (∀ b, small_loop fuel st w i = some b →
        ∃ j, i ≤ j ∧ j < 6 ∧ st.seg j = some b ∧ b ∈ SL j ∧
          block_size st.mem b = 2 * (j + 1) ∧
          ∀ j', i ≤ j' → j' < j → SL j' = []) ∧
      (small_loop fuel st w i = none → ∀ j, i ≤ j → j < 6 → SL j = []) := by
  intro fuel
  induction fuel with
  | zero =>
    intro i hfi hw
    constructor
    · intro b hb
      exact Option.noConfusion hb
    · intro _ j hij hj
      omega
  | succ f ih =>
    intro i hfi hw
    by_cases hi : SEG_LIST_SIZE ≤ i
    · have hi6 : 6 ≤ i := hi
      constructor
      · intro b hb
        unfold small_loop at hb
        rw [if_pos hi] at hb
        exact Option.noConfusion hb
      · intro _ j hij hj
        omega
    · have hi6 : i < 6 := by
        have : ¬ (6 ≤ i) := hi
        omega
      have hchain := hrep i hi6
      cases hseg : st.seg i with
      | none =>
        have hSL : SL i = [] := Chain_none _ _ (hseg ▸ hchain)
        have step : small_loop (f + 1) st w i = small_loop f st w (i + 1) := by
          conv_lhs => unfold small_loop
          rw [if_neg hi, hseg]
        obtain ⟨IH1, IH2⟩ := ih (i + 1) (by omega) (fun j h1 h2 => hw j (by omega) h2)
        constructor
        · intro b hb
          rw [step] at hb
          obtain ⟨j, h1, h2, h3, h4, h5, h6⟩ := IH1 b hb
          refine ⟨j, by omega, h2, h3, h4, h5, fun j' hj1 hj2 => ?_⟩
          rcases Nat.eq_or_lt_of_le hj1 with he | hl
          · rw [← he]
            exact hSL
          · exact h6 j' (by omega) hj2
        · intro hb j h1 h2
          rw [step] at hb
          rcases Nat.eq_or_lt_of_le h1 with he | hl
          · rw [← he]
            exact hSL
          · exact IH2 hb j (by omega) h2
      | some hd =>
        obtain ⟨rest, hSLi, hrest⟩ := Chain_some _ _ _ (hseg ▸ hchain)
        have hscan : chain_scan (st.len + 1) st.mem w (some hd) = some hd := by
          have h := chain_scan_head st.mem w (2 * (i + 1)) (st.len + 1) (SL i) (st.seg i)
            (hrep i hi6) (by omega) (hsz i hi6) (hw i (le_refl i) hi6)
          rw [hseg, hSLi] at h
          exact h
        have step : small_loop (f + 1) st w i = some hd := by
          conv_lhs => unfold small_loop
          rw [if_neg hi, hseg]
          show (match chain_scan (st.len + 1) st.mem w (some hd) with
            | some b => some b
            | none => small_loop f st w (i + 1)) = some hd
          rw [hscan]
        constructor
        · intro b hb
          rw [step] at hb
          injection hb with hb
          subst hb
          refine ⟨i, le_refl i, hi6, hseg, ?_, ?_, fun j' h1 h2 => by omega⟩
          · rw [hSLi]
            exact List.mem_cons_self _ _
          · exact hsz i hi6 hd (by rw [hSLi]; exact List.mem_cons_self _ _)
        · intro hb
          rw [step] at hb
          exact Option.noConfusion hb

/-- small_find_fit specialized. -/
theorem small_find_fit_spec (st : State) (w : Nat) (SL : Nat → List Nat)
    (hw2 : 2 ≤ w) (hwe : w % 2 = 0)
    (hrep : ∀ j, j < 6 → Chain st.mem (st.seg j) (SL j))
    (hsz : ∀ j, j < 6 → ∀ x ∈ SL j, block_size st.mem x = 2 * (j + 1)) :
    (∀ b, small_find_fit st w = some b →
      ∃ j, find_index w ≤ j ∧ j < 6 ∧ st.seg j = some b ∧ b ∈ SL j ∧
        block_size st.mem b = 2 * (j + 1) ∧
        ∀ j', find_index w ≤ j' → j' < j → SL j' = []) ∧
    (small_find_fit st w = none →
      ∀ j, find_index w ≤ j → j < 6 → SL j = []) :=
  small_loop_spec st w SL hrep hsz SEG_LIST_SIZE (find_index w)
    (by show 6 ≤ 6 + find_index w; omega)
    (fun j h1 h2 => by
      have h1' : (w - 2) / 2 ≤ j := h1
      omega)

/-- Once the small classes have failed, ceiling is one step of the
binary search. -/
theorem ceiling_succ (st : State) (w f : Nat) (root : Option Nat)
    (hres : (if w ≤ SEG_LIST_SIZE * 2 then small_find_fit st w else none) = none) :
    ceiling (f + 1) st w root =
      match root with
      | none => none
      | some rt =>
        if cmp_uint w (block_size st.mem rt) = 0 then some rt
        else if 0 < cmp_uint w (block_size st.mem rt) then
          ceiling f st w (block_right st.mem rt)
        else
          match ceiling f st w (block_left st.mem rt) with
          | some t => some t
          | none => some rt := by
  conv_lhs => unfold ceiling
  rw [hres]

/-- A small hit short-circuits ceiling. -/
theorem ceiling_small_hit (st : State) (w f : Nat) (root : Option Nat) (s : Nat)
    (hw : w ≤ SEG_LIST_SIZE * 2) (hs : small_find_fit st w = some s) :
    ceiling (f + 1) st w root = some s := by
  conv_lhs => unfold ceiling
  rw [if_pos hw, hs]

/-- Inverting TreeRep at a node. -/
theorem TreeRep_node_inv (m : Mem) (root : Option Nat) (l : BT) (b sz : Nat)
    (ring : List Nat) (r : BT) (h : TreeRep m root (.node l b sz ring r)) :
    root = some b ∧ block_size m b = sz ∧ block_pred m b = none ∧
    Chain m (block_succ m b) ring ∧ (∀ x ∈ ring, block_size m x = sz) ∧
    TreeRep m (block_left m b) l ∧ TreeRep m (block_right m b) r := by
  cases h with
  | node _ _ _ _ _ hsz hpred hring hrsz hl hr =>
    exact ⟨rfl, hsz, hpred, hring, hrsz, hl, hr⟩

/-- On a small miss, ceiling finds the canonical block of the least
tree key at least the request, or reports that every key is below the
request. -/
theorem ceiling_tree (st : State) (w : Nat)
    (hres : (if w ≤ SEG_LIST_SIZE * 2 then small_find_fit st w else none) = none) :
    ∀ (t : BT) (root : Option Nat) (fuel : Nat),
      TreeRep st.mem root t → t.WF → t.height < fuel →
      (∀ b, ceiling fuel st w root = some b →
        ∃ sz, block_size st.mem b = sz ∧ block_pred st.mem b = none ∧
          (b, sz) ∈ t.nodes ∧ w ≤ sz ∧ ∀ k ∈ t.keys, w ≤ k → sz ≤ k) ∧
      (ceiling fuel st w root = none → ∀ k ∈ t.keys, k < w) := by
  intro t
  induction t with
  | leaf =>
    intro root fuel hrep hwf hfu
    obtain ⟨f, rfl⟩ : ∃ f, fuel = f + 1 := ⟨fuel - 1, by omega⟩
    cases hrep
    rw [ceiling_succ st w f none hres]
    refine ⟨fun b hb => Option.noConfusion hb, fun _ k hk => ?_⟩
    simp only [BT.keys, List.not_mem_nil] at hk
  | node l b0 sz0 ring r ihl ihr =>
    intro root fuel hrep hwf hfu
    obtain ⟨f, rfl⟩ : ∃ f, fuel = f + 1 := ⟨fuel - 1, by omega⟩
    obtain ⟨hroot, hsz, hpred, hring, hrsz, hl, hr⟩ :=
      TreeRep_node_inv st.mem root l b0 sz0 ring r hrep
    subst hroot
    obtain ⟨hkl, hkr, hwfl, hwfr⟩ := hwf
    have hhl : l.height < f := by
      have h1 := le_max_left l.height r.height
      unfold BT.height at hfu
      omega
    have hhr : r.height < f := by
      have h1 := le_max_right l.height r.height
      unfold BT.height at hfu
      omega
    have key : ceiling (f + 1) st w (some b0) =
        (if cmp_uint w (block_size st.mem b0) = 0 then some b0
         else if 0 < cmp_uint w (block_size st.mem b0) then
           ceiling f st w (block_right st.mem b0)
         else match ceiling f st w (block_left st.mem b0) with
           | some t => some t
           | none => some b0) := by
      rw [ceiling_succ st w f (some b0) hres]
    rw [hsz] at key
    rcases lt_trichotomy w sz0 with hlt | heq | hgt
    · have hc : cmp_uint w sz0 = -1 := by
        unfold cmp_uint
        rw [if_neg (by omega), if_pos hlt]
      rw [hc, if_neg (by decide), if_neg (by decide)] at key
      obtain ⟨IL1, IL2⟩ := ihl (block_left st.mem b0) f hl hwfl hhl
      cases hfl : ceiling f st w (block_left st.mem b0) with
      | some t' =>
        rw [hfl] at key
        have key2 : ceiling (f + 1) st w (some b0) = some t' := key
        obtain ⟨sz, h1, h2, h3, h4, h5⟩ := IL1 t' hfl
        have hszk : sz ∈ l.keys := BT.nodes_mem_keys l t' sz h3
        constructor
        · intro b hb
          rw [key2] at hb
          injection hb with hb
          subst hb
          refine ⟨sz, h1, h2, ?_, h4, ?_⟩
          · unfold BT.nodes
            exact List.mem_append.2 (Or.inl h3)
          · intro k hk hwk
            unfold BT.keys at hk
            rcases List.mem_append.1 hk with hk | hk
            · exact h5 k hk hwk
            · rcases List.mem_cons.1 hk with hk | hk
              · subst hk
                exact le_of_lt (hkl sz hszk)
              · have := hkr k hk
                have := hkl sz hszk
                omega
        · intro hb
          rw [key2] at hb
          exact Option.noConfusion hb
      | none =>
        rw [hfl] at key
        have key2 : ceiling (f + 1) st w (some b0) = some b0 := key
        constructor
        · intro b hb
          rw [key2] at hb
          injection hb with hb
          subst hb
          refine ⟨sz0, hsz, hpred, ?_, le_of_lt hlt, ?_⟩
          · unfold BT.nodes
            exact List.mem_append.2 (Or.inr (List.mem_cons_self _ _))
          · intro k hk hwk
            unfold BT.keys at hk
            rcases List.mem_append.1 hk with hk | hk
            · have := IL2 hfl k hk
              omega
            · rcases List.mem_cons.1 hk with hk | hk
              · subst hk
                exact le_refl _
              · exact le_of_lt (hkr k hk)
        · intro hb
          rw [key2] at hb
          exact Option.noConfusion hb
    · have hc : cmp_uint w sz0 = 0 := by
        unfold cmp_uint
        rw [if_neg (by omega), if_neg (by omega)]
      rw [hc, if_pos rfl] at key
      constructor
      · intro b hb
        rw [key] at hb
        injection hb with hb
        subst hb
        refine ⟨sz0, hsz, hpred, ?_, le_of_eq heq, ?_⟩
        · unfold BT.nodes
          exact List.mem_append.2 (Or.inr (List.mem_cons_self _ _))
        · intro k hk hwk
          unfold BT.keys at hk
          rcases List.mem_append.1 hk with hk | hk
          · have := hkl k hk
            omega
          · rcases List.mem_cons.1 hk with hk | hk
            · subst hk
              exact le_refl _
            · exact le_of_lt (hkr k hk)
      · intro hb
        rw [key] at hb
        exact Option.noConfusion hb
    · have hc : cmp_uint w sz0 = 1 := by
        unfold cmp_uint
        rw [if_pos hgt]
      rw [hc, if_neg (by decide), if_pos (by decide)] at key
      obtain ⟨IR1, IR2⟩ := ihr (block_right st.mem b0) f hr hwfr hhr
      constructor
      · intro b hb
        rw [key] at hb
        obtain ⟨sz, h1, h2, h3, h4, h5⟩ := IR1 b hb
        refine ⟨sz, h1, h2, ?_, h4, ?_⟩
        · unfold BT.nodes
          exact List.mem_append.2 (Or.inr (List.mem_cons.2 (Or.inr h3)))
        · intro k hk hwk
          unfold BT.keys at hk
          rcases List.mem_append.1 hk with hk | hk
          · have := hkl k hk
            omega
          · rcases List.mem_cons.1 hk with hk | hk
            · subst hk
              omega
            · exact h5 k hk hwk
      · intro hb
        rw [key] at hb
        intro k hk
        unfold BT.keys at hk
        rcases List.mem_append.1 hk with hk | hk
        · have := hkl k hk
          omega
        · rcases List.mem_cons.1 hk with hk | hk
          · omega
          · exact IR2 hb k hk

/-- Membership in one small class gives membership in the joined
small-class list. -/
theorem mem_small_append (SL : Nat → List Nat) (j x : Nat) (hj : j < 6) (hx : x ∈ SL j) :
    x ∈ SL 0 ++ SL 1 ++ SL 2 ++ SL 3 ++ SL 4 ++ SL 5 := by
  interval_cases j <;> simp only [List.mem_append] <;> tauto

/-- Membership in the joined small-class list gives a class. -/
theorem small_append_mem (SL : Nat → List Nat) (x : Nat)
    (hx : x ∈ SL 0 ++ SL 1 ++ SL 2 ++ SL 3 ++ SL 4 ++ SL 5) :
    ∃ j, j < 6 ∧ x ∈ SL j := by
  simp only [List.mem_append] at hx
  rcases hx with ((((h | h) | h) | h) | h) | h
  exacts [⟨0, by omega, h⟩, ⟨1, by omega, h⟩, ⟨2, by omega, h⟩,
    ⟨3, by omega, h⟩, ⟨4, by omega, h⟩, ⟨5, by omega, h⟩]

/-- find_fit through the tree path: on a small miss the returned block
is a canonical tree node of the best-fitting key. -/
theorem c2_tree_path (st : State) (w : Nat) (SL : Nat → List Nat) (t : BT)
    (hres : (if w ≤ SEG_LIST_SIZE * 2 then small_find_fit st w else none) = none)
    (htr : TreeRep st.mem st.segRoot t) (hwf : t.WF)
    (hht : t.height ≤ st.len)
    (hnofit : ∀ c ∈ SL 0 ++ SL 1 ++ SL 2 ++ SL 3 ++ SL 4 ++ SL 5,
      w ≤ block_size st.mem c → False)
    (b : Nat) (hb : find_fit st w = some b) :
    b ∈ (SL 0 ++ SL 1 ++ SL 2 ++ SL 3 ++ SL 4 ++ SL 5) ++ t.offs ∧
    w ≤ block_size st.mem b ∧
    (∀ c ∈ (SL 0 ++ SL 1 ++ SL 2 ++ SL 3 ++ SL 4 ++ SL 5) ++ t.offs,
      w ≤ block_size st.mem c → block_size st.mem b ≤ block_size st.mem c) ∧
    ((∃ j, j < SEG_LIST_SIZE ∧ st.seg j = some b) ∨ ∃ sz, (b, sz) ∈ t.nodes) := by
  have hb' : ∃ c, ceiling (st.len + 1) st w st.segRoot = some c ∧
      minimum (st.len + 1) st.mem c ADDRESS = b := by
    unfold find_fit at hb
    cases hceil : ceiling (st.len + 1) st w st.segRoot with
    | none =>
      rw [hceil] at hb
      exact Option.noConfusion hb
    | some c =>
      rw [hceil] at hb
      exact ⟨c, rfl, Option.some.inj hb⟩
  obtain ⟨c, hceil, hmin⟩ := hb'
  obtain ⟨C1, _⟩ := ceiling_tree st w hres t st.segRoot (st.len + 1) htr hwf (by omega)
  obtain ⟨sz, hszc, hpredc, hnodes, hwle, hmink⟩ := C1 c hceil
  rw [minimum_head (st.len + 1) st.mem c (by omega) hpredc] at hmin
  subst hmin
  refine ⟨?_, ?_, ?_, Or.inr ⟨sz, hnodes⟩⟩
  · exact List.mem_append.2 (Or.inr (BT.nodes_mem_offs t c sz hnodes))
  · rw [hszc]
    exact hwle
  · intro c' hc' hwc'
    rcases List.mem_append.1 hc' with hc' | hc'
    · exact absurd hwc' (fun h => hnofit c' hc' h)
    · obtain ⟨k, hk, hek⟩ := TreeRep_offs_size st.mem st.segRoot t htr c' hc'
      rw [hszc, hek]
      exact hmink k hk (by rw [← hek]; exact hwc')

/-- C2: find_fit, on a well-formed free-set index (small classes
realized by chains of the right class size with NULL-pred heads, the
size tree realizing a search tree of keys above the small range),
returns a free block of the index of size at least the request such
that no indexed block of strictly smaller size still fits, and the
returned block is the canonical head of its structure: a small-class
head or a canonical tree node.  This is the amended claim: best fit
by size, with the ring head rather than the lowest address returned
within the chosen class (the original lowest-address claim is refuted
by c2_find_fit_not_lowest_address). -/
theorem c2_find_fit_best_fit (st : State) (w : Nat) (SL : Nat → List Nat) (t : BT)
    (hw2 : 2 ≤ w) (hwe : w % 2 = 0)
    (hrep : ∀ j, j < SEG_LIST_SIZE → Chain st.mem (st.seg j) (SL j))
    (hszh : ∀ j, j < SEG_LIST_SIZE → ∀ x ∈ SL j, block_size st.mem x = 2 * (j + 1))
    (hpred : ∀ j h, j < SEG_LIST_SIZE → st.seg j = some h → block_pred st.mem h = none)
    (htr : TreeRep st.mem st.segRoot t) (hwf : t.WF)
    (htk : ∀ k ∈ t.keys, SEG_LIST_SIZE * 2 < k)
    (hht : t.height ≤ st.len)
    (b : Nat) (hb : find_fit st w = some b) :
    b ∈ (SL 0 ++ SL 1 ++ SL 2 ++ SL 3 ++ SL 4 ++ SL 5) ++ t.offs ∧
    w ≤ block_size st.mem b ∧
    (∀ c ∈ (SL 0 ++ SL 1 ++ SL 2 ++ SL 3 ++ SL 4 ++ SL 5) ++ t.offs,
      w ≤ block_size st.mem c → block_size st.mem b ≤ block_size st.mem c) ∧
    ((∃ j, j < SEG_LIST_SIZE ∧ st.seg j = some b) ∨ ∃ sz, (b, sz) ∈ t.nodes) := by
  have hrep6 : ∀ j, j < 6 → Chain st.mem (st.seg j) (SL j) := hrep
  have hsz6 : ∀ j, j < 6 → ∀ x ∈ SL j, block_size st.mem x = 2 * (j + 1) := hszh
  by_cases hws : w ≤ SEG_LIST_SIZE * 2
  · cases hsf : small_find_fit st w with
    | none =>
      have hres : (if w ≤ SEG_LIST_SIZE * 2 then small_find_fit st w else none) = none := by
        rw [if_pos hws, hsf]
      have hnofit : ∀ c ∈ SL 0 ++ SL 1 ++ SL 2 ++ SL 3 ++ SL 4 ++ SL 5,
          w ≤ block_size st.mem c → False := by
        intro c hc hwc
        obtain ⟨j, hj, hcj⟩ := small_append_mem SL c hc
        obtain ⟨_, S2⟩ := small_find_fit_spec st w SL hw2 hwe hrep6 hsz6
        by_cases hjf : find_index w ≤ j
        · rw [S2 hsf j hjf hj] at hcj
          exact List.not_mem_nil c hcj
        · have hcsz := hsz6 j hj c hcj
          rw [hcsz] at hwc
          have hjf' : ¬ ((w - 2) / 2 ≤ j) := hjf
          omega
      exact c2_tree_path st w SL t hres htr hwf hht hnofit b hb
    | some s =>
      have hb' : ∃ c, ceiling (st.len + 1) st w st.segRoot = some c ∧
          minimum (st.len + 1) st.mem c ADDRESS = b := by
        unfold find_fit at hb
        cases hceil : ceiling (st.len + 1) st w st.segRoot with
        | none =>
          rw [hceil] at hb
          exact Option.noConfusion hb
        | some c =>
          rw [hceil] at hb
          exact ⟨c, rfl, Option.some.inj hb⟩
      obtain ⟨c, hceil, hmin⟩ := hb'
      have hhit := ceiling_small_hit st w st.len st.segRoot s hws hsf
      rw [hhit] at hceil
      obtain rfl : s = c := Option.some.inj hceil
      obtain ⟨S1, _⟩ := small_find_fit_spec st w SL hw2 hwe hrep6 hsz6
      obtain ⟨j, hjf, hj6, hsegj, hmem, hszs, hempty⟩ := S1 s hsf
      rw [minimum_head (st.len + 1) st.mem s (by omega) (hpred j s hj6 hsegj)] at hmin
      subst hmin
      have hjf' : (w - 2) / 2 ≤ j := hjf
      refine ⟨List.mem_append.2 (Or.inl (mem_small_append SL j s hj6 hmem)), ?_, ?_,
        Or.inl ⟨j, hj6, hsegj⟩⟩
      · rw [hszs]
        omega
      · intro c' hc' hwc'
        rcases List.mem_append.1 hc' with hc' | hc'
        · obtain ⟨j', hj', hcj'⟩ := small_append_mem SL c' hc'
          have hszc' := hsz6 j' hj' c' hcj'
          rw [hszs, hszc']
          rw [hszc'] at hwc'
          by_cases hjle : find_index w ≤ j'
          · by_cases hjj : j' < j
            · rw [hempty j' hjle hjj] at hcj'
              exact absurd hcj' (List.not_mem_nil c')
            · omega
          · have hjle' : ¬ ((w - 2) / 2 ≤ j') := hjle
            omega
        · obtain ⟨k, hk, hek⟩ := TreeRep_offs_size st.mem st.segRoot t htr c' hc'
          have hk12 : 12 < k := htk k hk
          rw [hszs, hek]
          omega
  · have hres : (if w ≤ SEG_LIST_SIZE * 2 then small_find_fit st w else none) = none :=
      if_neg hws
    have hws' : ¬ (w ≤ 12) := hws
    have hnofit : ∀ c ∈ SL 0 ++ SL 1 ++ SL 2 ++ SL 3 ++ SL 4 ++ SL 5,
        w ≤ block_size st.mem c → False := by
      intro c hc hwc
      obtain ⟨j, hj, hcj⟩ := small_append_mem SL c hc
      have hcsz := hsz6 j hj c hcj
      rw [hcsz] at hwc
      omega
    exact c2_tree_path st w SL t hres htr hwf hht hnofit b hb

theorem c2_find_fit_best_fit_witness :
    1 ∈ (([] : List Nat) ++ [] ++ [] ++ [] ++ [] ++ []) ++
      (BT.node .leaf 1 14 [] .leaf).offs ∧
    14 ≤ block_size c2wit_state.mem 1 ∧
    (∀ c ∈ (([] : List Nat) ++ [] ++ [] ++ [] ++ [] ++ []) ++
        (BT.node .leaf 1 14 [] .leaf).offs,
      14 ≤ block_size c2wit_state.mem c →
      block_size c2wit_state.mem 1 ≤ block_size c2wit_state.mem c) ∧
    ((∃ j, j < SEG_LIST_SIZE ∧ c2wit_state.seg j = some 1) ∨
      ∃ sz, (1, sz) ∈ (BT.node .leaf 1 14 [] .leaf).nodes) :=
  c2_find_fit_best_fit c2wit_state 14 (fun _ => []) (BT.node .leaf 1 14 [] .leaf)
    (by decide) (by decide)
    (fun j _ => Chain.nil)
    (fun j _ x hx => absurd hx (List.not_mem_nil x))
    (fun j h _ hjh => Option.noConfusion hjh)
    (TreeRep.node 1 14 [] .leaf .leaf rfl rfl Chain.nil
      (fun x hx => absurd hx (List.not_mem_nil x)) TreeRep.leaf TreeRep.leaf)
    ⟨fun k hk => absurd hk (List.not_mem_nil k),
     fun k hk => absurd hk (List.not_mem_nil k), trivial, trivial⟩
    (by decide) (by decide) 1 rfl

end MM
